import Mathlib

/-!
The quicsand HTTP/3 client, `cmd/client/main.go`.

A shallow embedding of `main`, `AddRootCA` and the fan-out of fetch goroutines.

* The sequential start of `main` (lines 20–51) is the functions `startup` and
  `newClient`.
* The concurrent part (lines 53–77: the `WaitGroup`, the `for … range urls`
  loop, the goroutine bodies, `wg.Wait()` and the deferred calls that run when
  `main` returns) is a labelled transition system `step` over `State`; a
  schedule is a list of `Action`s and every interleaving is some schedule.
* Everything the program obtains from outside (flags, logger construction, the
  system certificate pool, the file system, PEM decoding, the network) is a
  field of `World` or a label chosen by the environment.
* The state keeps both the calls made to the logger (`log`) and the entries
  the logger has written (`emitted`): the production logger, built without
  `-v`, samples entries of equal level and message, the development logger
  writes every call.
-/

namespace Quicsand

/-! ## Values of the outside world -/

/-- A byte string (`[]byte`). -/
abbrev Bytes := List Nat

/-- A Go `error` value, identified by its text. -/
structure GoError where
  text : String
deriving DecidableEq, Repr

/-- An X.509 certificate, identified by its raw encoding. -/
structure Certificate where
  raw : Bytes
deriving DecidableEq, Repr

/-- A certificate pool (`*x509.CertPool`): the certificates in insertion order. -/
abbrev CertPool := List Certificate

/-- The value given to `panic`: an `error` (line 85) or a string (line 88). -/
inductive PanicValue
  | error (e : GoError)
  | message (s : String)
deriving DecidableEq, Repr

/-- The metadata of a `*http.Response`; its body is a stream read later by `io.Copy`. -/
structure Response where
  status : Nat
deriving DecidableEq, Repr

/-- The `tls.Config` inside the `http3.RoundTripper` of lines 40–47
(`KeyLogWriter` and `QuicConfig` are nil there). -/
structure TransportConfig where
  rootCAs : CertPool
  insecureSkipVerify : Bool
deriving DecidableEq, Repr

/-! ## `path.Join` and `path.Clean` (Go standard library, package `path`) -/

/-- The `..` case of `path.Clean` when it can backtrack: `out.w--` and then
`for out.w > dotdot && out.index(out.w) != '/' { out.w-- }`.  The output
buffer is kept reversed, its head being the byte at index `out.w - 1`. -/
def cleanBacktrack : List Char → Nat → List Char
  | [], _ => []
  | c :: rest, dotdot =>
    if dotdot < rest.length ∧ c ≠ '/' then cleanBacktrack rest dotdot else rest

/-- The main loop `for r < n` of `path.Clean`.  `p` is `path[r:]`, `rout` the
reversed output buffer, `dotdot` the index where `..` must stop.  Every
iteration consumes at least one byte of `p`, so `fuel = len(path)` iterations
are enough; `none` stands for running out of fuel. -/
def cleanLoop (rooted : Bool) : Nat → List Char → List Char → Nat → Option (List Char)
  | _, [], rout, _ => some rout
  | 0, _ :: _, _, _ => none
  | fuel + 1, c :: t, rout, dotdot =>
    if c = '/' then
      -- empty path element
      cleanLoop rooted fuel t rout dotdot
    else if c = '.' ∧ (t = [] ∨ t.head? = some '/') then
      -- . element
      cleanLoop rooted fuel t rout dotdot
    else if c = '.' ∧ t.head? = some '.' ∧ (t.tail = [] ∨ t.tail.head? = some '/') then
      -- .. element: remove to last /
      if dotdot < rout.length then
        cleanLoop rooted fuel t.tail (cleanBacktrack rout dotdot) dotdot
      else if rooted = false then
        let rout1 := if 0 < rout.length then '/' :: rout else rout
        let rout2 := '.' :: '.' :: rout1
        cleanLoop rooted fuel t.tail rout2 rout2.length
      else
        cleanLoop rooted fuel t.tail rout dotdot
    else
      -- real path element: add slash if needed, then copy the element
      let rout1 :=
        if (rooted = true ∧ rout.length ≠ 1) ∨ (rooted = false ∧ rout.length ≠ 0) then
          '/' :: rout
        else rout
      let elem := (c :: t).takeWhile (fun x => x ≠ '/')
      let rest := (c :: t).dropWhile (fun x => x ≠ '/')
      cleanLoop rooted fuel rest (elem.reverse ++ rout1) dotdot

/-- Go `path.Clean` on the bytes of a path. -/
def cleanChars (p : List Char) : List Char :=
  match p with
  | [] => ['.']
  | c :: _ =>
    let rooted : Bool := decide (c = '/')
    let start : List Char := if rooted then ['/'] else []
    let begin : List Char := if rooted then p.tail else p
    match cleanLoop rooted p.length begin start start.length with
    | none => ['.']
    | some [] => ['.']
    | some rout => rout.reverse

/-- The buffer `path.Join` builds before cleaning: the non-empty start and
every later element, separated by `/`; empty elements are skipped. -/
def joinBuf : List (List Char) → List Char → List Char
  | [], buf => buf
  | e :: es, buf =>
    if buf ≠ [] ∨ e ≠ [] then
      joinBuf es ((if buf ≠ [] then buf ++ ['/'] else buf) ++ e)
    else joinBuf es buf

/-- Go `path.Join` on byte lists: `""` when every element is empty, else
`Clean` of the `/`-separated non-empty elements. -/
def joinChars (elem : List (List Char)) : List Char :=
  if (elem.map List.length).sum = 0 then [] else cleanChars (joinBuf elem [])

/-- Go `path.Clean`. -/
def Clean (p : String) : String := String.mk (cleanChars p.data)

/-- Go `path.Join`. -/
def Join (elem : List String) : String := String.mk (joinChars (elem.map String.data))

/-! ## The logging facade (`*zap.SugaredLogger`) -/

/-- A value passed to the logger. -/
inductive Value
  | str (s : String)
  | int (n : Int)
  | bytes (b : Bytes)
  | err (e : GoError)
  | response (r : Response)
deriving DecidableEq, Repr

/-- The logger method that was called. -/
inductive LogCall
  | Infow
  | Infof
  | Fatalw
deriving DecidableEq, Repr

/-- One call of the logger: the method, its first argument (message or
template) and the remaining arguments in order. -/
structure Entry where
  call : LogCall
  msg : String
  args : List Value
deriving DecidableEq, Repr

/-- The severity of an entry. -/
inductive Level
  | info
  | fatal
deriving DecidableEq, Repr

/-- The severity a logger method writes at. -/
def LogCall.level : LogCall → Level
  | .Infow => .info
  | .Infof => .info
  | .Fatalw => .fatal

/-- The message of an entry, which with the level is what the logger samples
on.  For `Infow` and `Fatalw` it is the message argument; the further
arguments are fields and no part of it.  For `Infof` it is the template
formatted with its operands, kept here as the template with the operands. -/
structure Message where
  text : String
  operands : List Value
deriving DecidableEq, Repr

/-- The message of a logger call. -/
def Entry.message (e : Entry) : Message :=
  match e.call with
  | .Infof => ⟨e.msg, e.args⟩
  | _ => ⟨e.msg, []⟩

/-- The configuration `NewLogger` builds the logger from (lines 93–98). -/
inductive ZapConfig
  /-- Built by `zap.NewDevelopmentConfig()`, with `-v`. -/
  | development
  /-- Built by `zap.NewProductionConfig()`, without `-v`. -/
  | production
deriving DecidableEq, Repr

/-- The sampling of a zap configuration: within one second the first
`initial` entries of equal level and message are written, and after them
every `thereafter`-th. -/
structure Sampling where
  initial : Nat
  thereafter : Nat
deriving DecidableEq, Repr

/-- The field `Sampling` of the two configurations: `NewProductionConfig` sets
`Initial: 100, Thereafter: 100`, `NewDevelopmentConfig` sets none. -/
def ZapConfig.sampling : ZapConfig → Option Sampling
  | .development => none
  | .production => some ⟨100, 100⟩

/-- The decision of the zap sampler on the `n`-th entry of its level and
message within the current second: it is dropped when
`n > first && (thereafter == 0 || (n-first)%thereafter != 0)`. -/
def Sampling.drops (p : Sampling) (n : Nat) : Bool :=
  decide (p.initial < n) &&
    (decide (p.thereafter = 0) || decide ((n - p.initial) % p.thereafter ≠ 0))

/-- The counters of the sampler: for a level and message, the number of
entries seen in the current second.  (zap keeps them in a table indexed by a
hash of level and message; they are kept per level and message here.) -/
abbrev Counters := List ((Level × Message) × Nat)

/-- The counter of a level and message; 0 when none was seen. -/
def Counters.get (c : Counters) (key : Level × Message) : Nat :=
  ((c.find? (fun x => decide (x.1 = key))).map Prod.snd).getD 0

/-- The counters without that of a level and message. -/
def Counters.reset (c : Counters) (key : Level × Message) : Counters :=
  c.filter (fun x => decide (x.1 ≠ key))

/-- The counters with that of a level and message set to `n`. -/
def Counters.set (c : Counters) (key : Level × Message) (n : Nat) : Counters :=
  (key, n) :: c.reset key

/-- The goroutine that made a call. -/
inductive Goroutine
  | main
  | task (i : Nat)
deriving DecidableEq, Repr

/-! ## Startup: lines 20–51 of `main`, and `AddRootCA` -/

/-- What the process reads from outside before the fan-out. -/
structure World where
  /-- Flag `-v`. -/
  verbose : Bool
  /-- Flag `-q`. -/
  quiet : Bool
  /-- Flag `-insecure`. -/
  insecure : Bool
  /-- Positional arguments, `flag.Args()`. -/
  urls : List String
  /-- The error of `config.Build()` in `NewLogger`, for each value of `verbose`. -/
  buildLogger : Bool → Option GoError
  /-- Result of `x509.SystemCertPool()`. -/
  systemCertPool : Except GoError CertPool
  /-- Result of `os.Getwd()`: the directory and the error. -/
  getwd : String × Option GoError
  /-- Result of `ioutil.ReadFile` for each path. -/
  readFile : String → Except GoError Bytes
  /-- The certificates `AppendCertsFromPEM` decodes from a byte string, in
  order: the `CERTIFICATE` blocks without headers that `ParseCertificate` accepts. -/
  pemCerts : Bytes → List Certificate

/-- Lines 93–98 of `NewLogger`: the development configuration when `verbose`,
else the production configuration. -/
def loggerConfig (verbose : Bool) : ZapConfig :=
  if verbose then .development else .production

/-- Function `NewLogger` (lines 92–105): the error of `config.Build()` is returned,
otherwise the sugared logger, which is the configuration it was built from. -/
def NewLogger (w : World) (verbose : Bool) : Except GoError ZapConfig :=
  let config := loggerConfig verbose
  match w.buildLogger verbose with
  | some e => .error e
  | none => .ok config

/-- Go `(*x509.CertPool).AddCert`: a certificate already in the pool is not added twice. -/
def CertPool.AddCert (s : CertPool) (c : Certificate) : CertPool :=
  if c ∈ s then s else s ++ [c]

/-- Go `(*x509.CertPool).AppendCertsFromPEM`: every certificate decoded from the
data is added; the result reports whether any certificate was decoded. -/
def CertPool.AppendCertsFromPEM (w : World) (s : CertPool) (pemData : Bytes) : CertPool × Bool :=
  ((w.pemCerts pemData).foldl CertPool.AddCert s, decide (w.pemCerts pemData ≠ []))

/-- Line 82: `caCertPath := path.Join(currentDir, "security", "ca.pem")` with
`currentDir, _ := os.Getwd()` (line 81; the error is dropped). -/
def caCertPath (w : World) : String :=
  Join [w.getwd.1, "security", "ca.pem"]

/-- What a call of `AddRootCA` did: the path it gave to `ioutil.ReadFile` and
either the value it panicked with or the pool after the call. -/
structure AddRootCAResult where
  readPath : String
  outcome : Except PanicValue CertPool

/-- Function `AddRootCA` (lines 80–90): the pool is passed by pointer there and
returned here. -/
def AddRootCA (w : World) (certPool : CertPool) : AddRootCAResult :=
  let currentDir := w.getwd.1
  let caCertPath := Join [currentDir, "security", "ca.pem"]
  match w.readFile caCertPath with
  | .error err => ⟨caCertPath, .error (.error err)⟩
  | .ok caCertRaw =>
    match CertPool.AppendCertsFromPEM w certPool caCertRaw with
    | (pool, true) => ⟨caCertPath, .ok pool⟩
    | (_, false) => ⟨caCertPath, .error (.message "could not add root certificate to pool.")⟩

/-- How startup can end the process before the transport is built. -/
inductive Abort
  /-- Line 30: `log.Fatalf("Error building logger: %s", …)`, exit status 1. -/
  | loggerFatal (e : GoError)
  /-- Line 36: `logger.Fatalw("unable to read certs", "err", err)`, exit status 1. -/
  | certsFatal (entry : Entry)
  /-- Line 38: `AddRootCA` panicked. -/
  | panic (v : PanicValue)
deriving DecidableEq, Repr

/-- Lines 28–38 of `main`: the logger, the system pool, `AddRootCA`.  The
result is the trust store handed to the transport, or the abort. -/
def startup (w : World) : Except Abort CertPool :=
  match NewLogger w w.verbose with
  | .error err => .error (.loggerFatal err)
  | .ok _ =>
    match w.systemCertPool with
    | .error err => .error (.certsFatal ⟨.Fatalw, "unable to read certs", [.str "err", .err err]⟩)
    | .ok pool =>
      match (AddRootCA w pool).outcome with
      | .error v => .error (.panic v)
      | .ok pool1 => .ok pool1

/-- Lines 40–51: the round tripper and the client built on it. -/
def newClient (w : World) (pool : CertPool) : TransportConfig :=
  { rootCAs := pool, insecureSkipVerify := w.insecure }

/-! ## The fan-out: lines 53–77 of `main` -/

/-- Where a fetch goroutine (lines 57–74) stands.  Each point keeps the local
variables `response`, `body` and `err` the goroutine holds there. -/
inductive TaskPc
  /-- Launched, `hclient.Get(url)` (line 58) not yet called. -/
  | start
  /-- Line 58 returned an error; at the test of line 59. -/
  | getFailed (err : GoError)
  /-- Line 58 returned a response; at the test of line 59. -/
  | getOk (response : Response)
  /-- Line 60 ran: `logger.Fatalw("unable to get the url", …)`. -/
  | fatalGet (err : GoError)
  /-- Line 62 ran; at `io.Copy` (line 64). -/
  | received (response : Response)
  /-- Line 64 returned; at the test of line 65. -/
  | copied (response : Response) (body : Bytes) (err : Option GoError)
  /-- Line 66 ran: `logger.Fatalw("unable to response body", …)`. -/
  | fatalCopy (response : Response) (body : Bytes) (err : GoError)
  /-- Line 69 or 71 ran; at `wg.Done()` (line 73). -/
  | reported (response : Response) (body : Bytes)
  /-- Line 73 ran: the goroutine has returned. -/
  | done (response : Response) (body : Bytes)
deriving DecidableEq, Repr

/-- A launched fetch goroutine: its parameter `url` and where it stands. -/
structure Task where
  url : String
  pc : TaskPc
deriving DecidableEq, Repr

/-- Where the main goroutine stands from line 55 on. -/
inductive MainPc
  /-- At the head of `for _, u := range urls` (line 55), `i` elements done. -/
  | loop (i : Nat)
  /-- Line 56 ran for element `i`, whose value is `u`; at the `go` statement (line 57). -/
  | spawn (i : Nat) (u : String)
  /-- At `wg.Wait()` (line 76). -/
  | wait
  /-- Past `wg.Wait()`: `main` returns; the deferred `roundTripper.Close()` (line 48) is next. -/
  | closing
  /-- The deferred `logger.Sync()` (line 32) is next. -/
  | syncing
  /-- Both deferred calls ran: `main` has returned. -/
  | returned
deriving DecidableEq, Repr

/-- Whether the process is alive, and how it ended. -/
inductive Status
  | running
  /-- Exit status 0: `main` returned. -/
  | exitedNormally
  /-- Exit status 1: `os.Exit(1)` at the end of `logger.Fatalw` (or of `log.Fatalf`). -/
  | exitedFatal
  /-- An uncaught panic. -/
  | panicked
deriving DecidableEq, Repr

/-- One call of `hclient.Get`: the goroutine, the URL, and the configuration
of the transport of the client it was made on. -/
structure GetCall where
  task : Nat
  url : String
  config : TransportConfig
deriving DecidableEq, Repr

/-- The state of the process from line 55 on. -/
structure State where
  /-- The slice `urls` (line 26). -/
  urls : List String
  /-- The flag `*quiet` (line 22). -/
  quiet : Bool
  /-- The transport of `hclient` (lines 40–51). -/
  client : TransportConfig
  /-- The logger `NewLogger` returned (line 28). -/
  logger : ZapConfig
  /-- The counters of the logger's sampler. -/
  counts : Counters
  /-- The counter of `wg`. -/
  wg : Int
  mainPc : MainPc
  /-- The goroutines launched so far, in launch order. -/
  tasks : List Task
  /-- The calls of the logger so far, oldest first. -/
  log : List (Goroutine × Entry)
  /-- The entries the logger has written so far, oldest first: the calls its
  sampler did not drop. -/
  emitted : List (Goroutine × Entry)
  /-- The calls of `hclient.Get` so far, oldest first. -/
  gets : List GetCall
  /-- How often `roundTripper.Close()` has run. -/
  closes : Nat
  /-- How often `logger.Sync()` has run. -/
  syncs : Nat
  status : Status
deriving DecidableEq, Repr

/-- The state at line 55: lines 53–54 declared `wg` and ran `wg.Add(len(urls))`;
no goroutine has been launched. -/
def fanStart (logger : ZapConfig) (urls : List String) (quiet : Bool)
    (client : TransportConfig) : State :=
  { urls := urls, quiet := quiet, client := client, logger := logger, counts := [],
    wg := (urls.length : Int), mainPc := .loop 0, tasks := [], log := [], emitted := [],
    gets := [], closes := 0, syncs := 0, status := .running }

/-- A scheduling step together with what the environment answered. -/
inductive Action
  /-- The main goroutine runs its next statement. -/
  | main
  /-- Goroutine `i` calls `hclient.Get(url)`, which returns an error or a response. -/
  | get (i : Nat) (result : Except GoError Response)
  /-- Goroutine `i` runs `io.Copy(body, response.Body)`, which leaves `body`
  filled and returns `err`. -/
  | copy (i : Nat) (body : Bytes) (err : Option GoError)
  /-- Goroutine `i` runs its next statement (a test and its logger call, or `wg.Done()`). -/
  | advance (i : Nat)
  /-- A second has passed since the sampler began to count the entries of a
  level and message: it counts them anew. -/
  | expire (level : Level) (message : Message)

/-- Lines 68–72: what a goroutine logs once the body is read.  With `*quiet`
it is `Infow` with the key `length` and `body.Len()`; otherwise it is `Infof`
with the template `request body` and the operands `body` and `body.Bytes()`. -/
def report (quiet : Bool) (body : Bytes) : Entry :=
  if quiet then
    ⟨.Infow, "request body bytes", [.str "length", .int (body.length : Int)]⟩
  else
    ⟨.Infof, "request body", [.str "body", .bytes body]⟩

/-- A call of the logger by goroutine `g`.  The call is recorded; the entry is
written unless the logger samples and its sampler drops it. -/
def State.write (s : State) (g : Goroutine) (e : Entry) : State :=
  match s.logger.sampling with
  | none => { s with log := s.log ++ [(g, e)], emitted := s.emitted ++ [(g, e)] }
  | some p =>
    let n := s.counts.get (e.call.level, e.message) + 1
    if p.drops n then
      { s with log := s.log ++ [(g, e)], counts := s.counts.set (e.call.level, e.message) n }
    else
      { s with log := s.log ++ [(g, e)], counts := s.counts.set (e.call.level, e.message) n,
               emitted := s.emitted ++ [(g, e)] }

/-- The next statement of the main goroutine. -/
def mainStep (s : State) : Option State :=
  match s.mainPc with
  | .loop i =>
    match s.urls[i]? with
    | some u =>
      some { s.write .main ⟨.Infow, "accessing url", [.str "url", .str u]⟩ with
        mainPc := .spawn i u }
    | none => some { s with mainPc := .wait }
  | .spawn i u =>
    some { s with tasks := s.tasks ++ [⟨u, .start⟩], mainPc := .loop (i + 1) }
  | .wait => if s.wg = 0 then some { s with mainPc := .closing } else none
  | .closing => some { s with closes := s.closes + 1, mainPc := .syncing }
  | .syncing =>
    some { s with syncs := s.syncs + 1, mainPc := .returned, status := .exitedNormally }
  | .returned => none

/-- Goroutine `i` moves to `pc`. -/
def State.setPc (s : State) (i : Nat) (t : Task) (pc : TaskPc) : State :=
  { s with tasks := s.tasks.set i { t with pc := pc } }

/-- The call of `logger.Fatalw`: the logger is called and the process exits
with status 1; no deferred call runs. -/
def State.fatalw (s : State) (i : Nat) (msg : String) (args : List Value) : State :=
  { s.write (.task i) ⟨.Fatalw, msg, args⟩ with status := .exitedFatal }

/-- A call of `logger.Infow` or `logger.Infof` by goroutine `i`. -/
def State.info (s : State) (i : Nat) (e : Entry) : State :=
  s.write (.task i) e

/-- The call `wg.Done()`, that is `wg.Add(-1)`: it panics when the counter
becomes negative. -/
def State.wgDone (s : State) : State :=
  { s with wg := s.wg - 1, status := if s.wg - 1 < 0 then .panicked else s.status }

/-- The next statement of goroutine `i`, which is task `t`, other than the
two calls that wait for the network. -/
def localStep (s : State) (i : Nat) (t : Task) : Option State :=
  match t.pc with
  | .getFailed err =>
    some ((s.fatalw i "unable to get the url"
      [.str "url", .str t.url, .str "error", .err err]).setPc i t (.fatalGet err))
  | .getOk response =>
    some ((s.info i ⟨.Infow, "response received",
      [.str "url", .str t.url, .str "response", .response response]⟩).setPc i t
        (.received response))
  | .copied response body (some err) =>
    some ((s.fatalw i "unable to response body"
      [.str "error", .err err]).setPc i t (.fatalCopy response body err))
  | .copied response body none =>
    some ((s.info i (report s.quiet body)).setPc i t (.reported response body))
  | .reported response body =>
    some (s.wgDone.setPc i t (.done response body))
  | _ => none

/-- One step of the process; `none` when the action is not enabled.  Nothing
runs once the process has exited. -/
def step (s : State) (a : Action) : Option State :=
  if s.status ≠ .running then none
  else
    match a with
    | .main => mainStep s
    | .get i result =>
      match s.tasks[i]? with
      | some t =>
        match t.pc with
        | .start =>
          let s1 := { s with gets := s.gets ++ [GetCall.mk i t.url s.client] }
          match result with
          | .error err => some (s1.setPc i t (.getFailed err))
          | .ok response => some (s1.setPc i t (.getOk response))
        | _ => none
      | none => none
    | .copy i body err =>
      match s.tasks[i]? with
      | some t =>
        match t.pc with
        | .received response => some (s.setPc i t (.copied response body err))
        | _ => none
      | none => none
    | .advance i =>
      match s.tasks[i]? with
      | some t => localStep s i t
      | none => none
    | .expire level message =>
      some { s with counts := s.counts.reset (level, message) }

/-- A step under a schedule that may name actions that are not enabled: those
leave the state as it is. -/
def next (s : State) (a : Action) : State :=
  (step s a).getD s

/-- The state a schedule leads to. -/
def run (s : State) (acts : List Action) : State :=
  acts.foldl next s

/-- The states the fan-out can be in: those some schedule leads to from line 55. -/
def Reachable (logger : ZapConfig) (urls : List String) (quiet : Bool)
    (client : TransportConfig) (s : State) : Prop :=
  ∃ acts : List Action, run (fanStart logger urls quiet client) acts = s

/-! ## The whole process -/

/-- A state of the whole run: ended by startup, or in the fan-out. -/
inductive Process
  | aborted (a : Abort)
  | fanout (s : State)

/-- The process when `main` reaches line 53, or the abort that ended it before. -/
def processStart (w : World) : Process :=
  match startup w with
  | .error a => .aborted a
  | .ok pool => .fanout (fanStart (loggerConfig w.verbose) w.urls w.quiet (newClient w pool))

/-- The process under a schedule; nothing runs after an abort. -/
def Process.run : Process → List Action → Process
  | .aborted a, _ => .aborted a
  | .fanout s, acts => .fanout (Quicsand.run s acts)

/-- The number of fetch goroutines launched. -/
def Process.launched : Process → Nat
  | .aborted _ => 0
  | .fanout s => s.tasks.length

/-- The calls of `hclient.Get` made. -/
def Process.gets : Process → List GetCall
  | .aborted _ => []
  | .fanout s => s.gets

/-- The trust store handed to the transport, when the transport was built. -/
def Process.transport : Process → Option TransportConfig
  | .aborted _ => none
  | .fanout s => some s.client

/-- How the process stands. -/
def Process.status : Process → Status
  | .aborted (.panic _) => .panicked
  | .aborted _ => .exitedFatal
  | .fanout s => s.status

/-! ## Observations on states -/

/-- The goroutine has called `hclient.Get` (line 58). -/
def TaskPc.called : TaskPc → Bool
  | .start => false
  | _ => true

/-- The goroutine has run `wg.Done()` (line 73). -/
def TaskPc.isDone : TaskPc → Bool
  | .done _ _ => true
  | _ => false

/-- The goroutine has run one of the two `logger.Fatalw` calls (lines 60, 66). -/
def TaskPc.isFatal : TaskPc → Bool
  | .fatalGet _ => true
  | .fatalCopy _ _ _ => true
  | _ => false

/-- The main goroutine has left the `for` loop of lines 55–75. -/
def MainPc.leftLoop : MainPc → Bool
  | .loop _ => false
  | .spawn _ _ => false
  | _ => true

/-- The main goroutine has passed `wg.Wait()` (line 76). -/
def MainPc.passedWait : MainPc → Bool
  | .closing => true
  | .syncing => true
  | .returned => true
  | _ => false

/-- The entry of line 62. -/
def receivedEntry (url : String) (response : Response) : Entry :=
  ⟨.Infow, "response received", [.str "url", .str url, .str "response", .response response]⟩

/-- The entry of line 60. -/
def getFatalEntry (url : String) (err : GoError) : Entry :=
  ⟨.Fatalw, "unable to get the url", [.str "url", .str url, .str "error", .err err]⟩

/-- The entry of line 66. -/
def copyFatalEntry (err : GoError) : Entry :=
  ⟨.Fatalw, "unable to response body", [.str "error", .err err]⟩

/-- The logger calls a goroutine has made when it stands at `t.pc`, oldest
first (lines 60, 62, 66, 69, 71). -/
def taskEntries (quiet : Bool) (t : Task) : List Entry :=
  match t.pc with
  | .start => []
  | .getFailed _ => []
  | .getOk _ => []
  | .fatalGet err => [getFatalEntry t.url err]
  | .received response => [receivedEntry t.url response]
  | .copied response _ _ => [receivedEntry t.url response]
  | .fatalCopy response _ err => [receivedEntry t.url response, copyFatalEntry err]
  | .reported response body => [receivedEntry t.url response, report quiet body]
  | .done response body => [receivedEntry t.url response, report quiet body]

/-- The logger calls of goroutine `i` in a state, oldest first. -/
def State.entriesOf (s : State) (i : Nat) : List Entry :=
  (s.log.filter (fun e => decide (e.1 = Goroutine.task i))).map Prod.snd

/-- Whether an action is a step of the main goroutine. -/
def Action.isMain : Action → Bool
  | .main => true
  | _ => false

/-- The invariant of the fan-out. -/
structure Inv (logger : ZapConfig) (urls : List String) (quiet : Bool)
    (client : TransportConfig) (s : State) : Prop where
  logger_eq : s.logger = logger
  emitted_sub : s.emitted.Sublist s.log
  emitted_all : s.logger.sampling = none → s.emitted = s.log
  urls_eq : s.urls = urls
  quiet_eq : s.quiet = quiet
  client_eq : s.client = client
  tasks_urls : s.tasks.map Task.url = urls.take s.tasks.length
  pc_tasks :
    match s.mainPc with
    | .loop i => s.tasks.length = i ∧ i ≤ urls.length
    | .spawn i u => s.tasks.length = i ∧ urls[i]? = some u
    | _ => s.tasks.length = urls.length
  wg_eq : s.wg = (urls.length : Int) - (s.tasks.countP (fun t => t.pc.isDone) : Int)
  passed : s.mainPc.passedWait = true → s.tasks.countP (fun t => t.pc.isDone) = urls.length
  closes_eq : s.closes = if s.mainPc = .syncing ∨ s.mainPc = .returned then 1 else 0
  normal_iff : s.status = .exitedNormally ↔ s.mainPc = .returned
  no_panic : s.status ≠ .panicked
  all_done : s.mainPc.passedWait = true → s.status ≠ .exitedFatal
  fatal_eq : s.tasks.countP (fun t => t.pc.isFatal) = if s.status = .exitedFatal then 1 else 0
  gets_perm : (s.gets.map GetCall.url).Perm
    ((s.tasks.filter (fun t => t.pc.called)).map Task.url)
  gets_cfg : ∀ g ∈ s.gets, g.config = client ∧ urls[g.task]? = some g.url
  gets_called : ∀ g ∈ s.gets, ∃ t, s.tasks[g.task]? = some t ∧ t.pc.called = true
  gets_nodup : (s.gets.map GetCall.task).Nodup
  log_task : ∀ i, s.entriesOf i =
    match s.tasks[i]? with
    | some t => taskEntries quiet t
    | none => []

/-- Every one of the `len(urls)` goroutines has been launched and has run its
final `wg.Done()`; such a goroutine took neither `Fatalw` branch. -/
def State.allDone (s : State) : Prop :=
  s.tasks.length = s.urls.length ∧
    ∀ t ∈ s.tasks, (∃ response body, t.pc = TaskPc.done response body) ∧ t.pc.isFatal = false

/-- The number of goroutines that have run `wg.Done()`. -/
def State.completed (s : State) : Nat :=
  s.tasks.countP (fun t => t.pc.isDone)

/-- Whether an entry is one of the two forms of lines 69 and 71. -/
def Entry.isReport (e : Entry) : Bool :=
  decide (e.msg = "request body bytes") || decide (e.msg = "request body")

/-- Whether an entry carries a byte string among its arguments. -/
def Entry.carriesBytes (e : Entry) : Bool :=
  e.args.any (fun v => match v with
    | .bytes _ => true
    | _ => false)

/-- Whether an entry carries the string `url` among its arguments. -/
def Entry.carriesUrl (e : Entry) (url : String) : Bool :=
  decide (Value.str url ∈ e.args)

/-- Whether an entry carries the error `err` among its arguments. -/
def Entry.carriesErr (e : Entry) (err : GoError) : Bool :=
  decide (Value.err err ∈ e.args)

/-- The entries the logger has written for goroutine `i`, oldest first. -/
def State.emittedOf (s : State) (i : Nat) : List Entry :=
  (s.emitted.filter (fun e => decide (e.1 = Goroutine.task i))).map Prod.snd

/-! ## Concrete worlds and schedules -/

/-- One round of a schedule: `main` logs and launches goroutine `i`, whose
fetch then succeeds with an empty body and which runs to its end. -/
def round (i : Nat) : List Action :=
  [.main, .main, .get i (.ok ⟨200⟩), .advance i, .copy i [] none, .advance i, .advance i]

/-- The schedule of `n` rounds, one goroutine after the other. -/
def rounds (n : Nat) : List Action :=
  (List.range n).flatMap round

/-- What the rounds keep: the process runs, `main` stands at the head of the
loop with `k` elements done, and the sampler has counted `k` entries of each
of the three messages. -/
structure RoundInv (urls : List String) (client : TransportConfig) (k : Nat) (s : State) :
    Prop where
  inv : Inv .production urls true client s
  running : s.status = .running
  pc : s.mainPc = .loop k
  countAccess : s.counts.get (.info, ⟨"accessing url", []⟩) = k
  countReceived : s.counts.get (.info, ⟨"response received", []⟩) = k
  countReport : s.counts.get (.info, ⟨"request body bytes", []⟩) = k


/-- A schedule in which the one fetch succeeds and `main` returns. -/
def okSchedule : List Action :=
  [.main, .main, .get 0 (.ok ⟨200⟩), .advance 0, .copy 0 [104, 105] none, .advance 0,
   .advance 0, .main, .main, .main, .main]

/-- A schedule in which the first goroutine fails in `hclient.Get` and calls
`logger.Fatalw` while `main` is still in its loop. -/
def earlyFatalSchedule : List Action :=
  [.main, .main, .get 0 (.error ⟨"dial failed"⟩), .advance 0]

/-- A schedule in which the one fetch gets a response and `io.Copy` then fails. -/
def copyFailSchedule : List Action :=
  [.main, .main, .get 0 (.ok ⟨200⟩), .advance 0,
   .copy 0 [104] (some ⟨"stream reset"⟩), .advance 0]

/-- A schedule in which the one fetch fails in `hclient.Get`. -/
def getFailSchedule : List Action :=
  [.main, .main, .main, .get 0 (.error ⟨"dial failed"⟩), .advance 0]

/-- A world whose `security/ca.pem` holds two certificates. -/
def twoCertWorld : World :=
  { verbose := false, quiet := false, insecure := false, urls := [],
    buildLogger := fun _ => none,
    systemCertPool := .ok [⟨[1]⟩],
    getwd := ("/srv", none),
    readFile := fun p => if p = "/srv/security/ca.pem" then .ok [45, 45] else .error ⟨"no such file"⟩,
    pemCerts := fun raw => if raw = [45, 45] then [⟨[2]⟩, ⟨[3]⟩] else [] }

/-- A world without `security/ca.pem`, run with no URL. -/
def missingCertWorld : World :=
  { verbose := false, quiet := false, insecure := false, urls := [],
    buildLogger := fun _ => none,
    systemCertPool := .ok [⟨[1]⟩],
    getwd := ("/srv", none),
    readFile := fun _ => .error ⟨"no such file"⟩,
    pemCerts := fun _ => [] }

/-- A world with one certificate in `security/ca.pem`, run with `-insecure`
on one URL. -/
def insecureWorld : World :=
  { verbose := false, quiet := false, insecure := true, urls := ["https://a.example"],
    buildLogger := fun _ => none,
    systemCertPool := .ok [⟨[1]⟩],
    getwd := ("/srv", none),
    readFile := fun p => if p = "/srv/security/ca.pem" then .ok [45] else .error ⟨"no such file"⟩,
    pemCerts := fun raw => if raw = [45] then [⟨[2]⟩] else [] }

/-- A world in which `os.Getwd` fails and the relative `security/ca.pem` is read. -/
def noCwdWorld : World :=
  { verbose := false, quiet := false, insecure := false, urls := [],
    buildLogger := fun _ => none,
    systemCertPool := .ok [⟨[1]⟩],
    getwd := ("", some ⟨"getwd: no such file or directory"⟩),
    readFile := fun p => if p = "security/ca.pem" then .ok [45] else .error ⟨"no such file"⟩,
    pemCerts := fun raw => if raw = [45] then [⟨[2]⟩] else [] }

/-- The state of a run without URLs after `k` steps of the main goroutine. -/
def emptyAt (logger : ZapConfig) (quiet : Bool) (client : TransportConfig) (k : Nat) :
    State :=
  run (fanStart logger [] quiet client) (List.replicate k .main)

/-! ## Lemmas on lists -/

theorem map_set_same {α β : Type} (f : α → β) {l : List α} {i : Nat} {t u : α}
    (h : l[i]? = some t) (hf : f u = f t) : (l.set i u).map f = l.map f := by
  induction l generalizing i with
  | nil => simp
  | cons a l ih =>
    cases i with
    | zero => simp at h; subst h; simp [hf]
    | succ i => simp at h; simp [ih h]

theorem countP_set_same {α : Type} (p : α → Bool) {l : List α} {i : Nat} {t u : α}
    (h : l[i]? = some t) (hp : p u = p t) : (l.set i u).countP p = l.countP p := by
  induction l generalizing i with
  | nil => simp
  | cons a l ih =>
    cases i with
    | zero => simp at h; subst h; simp [List.countP_cons, hp]
    | succ i => simp at h; simp [List.countP_cons, ih h]

theorem countP_set_new {α : Type} (p : α → Bool) {l : List α} {i : Nat} {t u : α}
    (h : l[i]? = some t) (hp : p t = false) (hp1 : p u = true) :
    (l.set i u).countP p = l.countP p + 1 := by
  induction l generalizing i with
  | nil => simp at h
  | cons a l ih =>
    cases i with
    | zero => simp at h; subst h; simp [List.countP_cons, hp, hp1]
    | succ i => simp at h; simp [List.countP_cons, ih h]; omega

theorem filter_map_set_same {α β : Type} (p : α → Bool) (f : α → β) {l : List α} {i : Nat}
    {t u : α} (h : l[i]? = some t) (hp : p u = p t) (hf : f u = f t) :
    ((l.set i u).filter p).map f = (l.filter p).map f := by
  induction l generalizing i with
  | nil => simp
  | cons a l ih =>
    cases i with
    | zero =>
      simp at h; subst h
      cases hpa : p a <;> simp [List.filter_cons, hp, hpa, hf]
    | succ i =>
      simp at h
      cases hpa : p a <;> simp [List.filter_cons, hpa, ih h]

theorem filter_map_set_new {α β : Type} (p : α → Bool) (f : α → β) {l : List α} {i : Nat}
    {t u : α} (h : l[i]? = some t) (hp : p t = false) (hp1 : p u = true) :
    (((l.set i u).filter p).map f).Perm (f u :: (l.filter p).map f) := by
  induction l generalizing i with
  | nil => simp at h
  | cons a l ih =>
    cases i with
    | zero =>
      simp at h; subst h
      simp [List.filter_cons, hp, hp1]
    | succ i =>
      simp at h
      cases hpa : p a
      · simpa [List.filter_cons, hpa] using ih h
      · simp only [List.set_cons_succ, List.filter_cons, hpa, if_true, List.map_cons]
        exact ((ih h).cons (f a)).trans (List.Perm.swap _ _ _)

theorem getElem?_set_self_of {α : Type} {l : List α} {i : Nat} {t u : α}
    (h : l[i]? = some t) : (l.set i u)[i]? = some u := by
  induction l generalizing i with
  | nil => simp at h
  | cons a l ih =>
    cases i with
    | zero => simp
    | succ i => simp at h; simpa using ih h

/-! ## The invariant holds in every reachable state -/

theorem write_urls (s : State) (g : Goroutine) (e : Entry) : (s.write g e).urls = s.urls := by
  unfold State.write
  split
  · rfl
  · dsimp only
    split <;> rfl

theorem write_quiet (s : State) (g : Goroutine) (e : Entry) : (s.write g e).quiet = s.quiet := by
  unfold State.write
  split
  · rfl
  · dsimp only
    split <;> rfl

theorem write_client (s : State) (g : Goroutine) (e : Entry) :
    (s.write g e).client = s.client := by
  unfold State.write
  split
  · rfl
  · dsimp only
    split <;> rfl

theorem write_logger (s : State) (g : Goroutine) (e : Entry) :
    (s.write g e).logger = s.logger := by
  unfold State.write
  split
  · rfl
  · dsimp only
    split <;> rfl

theorem write_wg (s : State) (g : Goroutine) (e : Entry) : (s.write g e).wg = s.wg := by
  unfold State.write
  split
  · rfl
  · dsimp only
    split <;> rfl

theorem write_mainPc (s : State) (g : Goroutine) (e : Entry) :
    (s.write g e).mainPc = s.mainPc := by
  unfold State.write
  split
  · rfl
  · dsimp only
    split <;> rfl

theorem write_tasks (s : State) (g : Goroutine) (e : Entry) : (s.write g e).tasks = s.tasks := by
  unfold State.write
  split
  · rfl
  · dsimp only
    split <;> rfl

theorem write_gets (s : State) (g : Goroutine) (e : Entry) : (s.write g e).gets = s.gets := by
  unfold State.write
  split
  · rfl
  · dsimp only
    split <;> rfl

theorem write_closes (s : State) (g : Goroutine) (e : Entry) :
    (s.write g e).closes = s.closes := by
  unfold State.write
  split
  · rfl
  · dsimp only
    split <;> rfl

theorem write_status (s : State) (g : Goroutine) (e : Entry) :
    (s.write g e).status = s.status := by
  unfold State.write
  split
  · rfl
  · dsimp only
    split <;> rfl

theorem write_log (s : State) (g : Goroutine) (e : Entry) :
    (s.write g e).log = s.log ++ [(g, e)] := by
  unfold State.write
  split
  · rfl
  · dsimp only
    split <;> rfl

/-- A call of the logger writes the entry or, when the logger samples, may drop it. -/
theorem write_emitted (s : State) (g : Goroutine) (e : Entry) :
    ∃ em : List Entry, em.Sublist [e] ∧
      (s.write g e).emitted = s.emitted ++ em.map (fun x => (g, x)) ∧
      (s.logger.sampling = none → em = [e]) := by
  unfold State.write
  split
  · exact ⟨[e], List.Sublist.refl _, rfl, fun _ => rfl⟩
  · rename_i p hp
    dsimp only
    split
    · exact ⟨[], List.nil_sublist _, by simp, fun h => by rw [hp] at h; cases h⟩
    · exact ⟨[e], List.Sublist.refl _, rfl, fun _ => rfl⟩

theorem inv_start (logger : ZapConfig) (urls : List String) (quiet : Bool)
    (client : TransportConfig) :
    Inv logger urls quiet client (fanStart logger urls quiet client) := by
  constructor <;> simp [fanStart, MainPc.passedWait, State.entriesOf]

theorem countP_lt_of_getElem? {α : Type} (p : α → Bool) {l : List α} {i : Nat} {t : α}
    (h : l[i]? = some t) (hp : p t = false) : l.countP p < l.length := by
  induction l generalizing i with
  | nil => simp at h
  | cons a l ih =>
    cases i with
    | zero =>
      simp at h; subst h
      have := List.countP_le_length p (l := l)
      simp [List.countP_cons, hp]; omega
    | succ i =>
      simp at h
      have := ih h
      simp only [List.countP_cons, List.length_cons]
      split <;> omega

theorem Inv.tasks_le {logger : ZapConfig} {urls : List String} {quiet : Bool}
    {client : TransportConfig}
    {s : State} (h : Inv logger urls quiet client s) : s.tasks.length ≤ urls.length := by
  have := congrArg List.length h.tasks_urls
  simp at this
  omega

theorem Inv.url_at {logger : ZapConfig} {urls : List String} {quiet : Bool}
    {client : TransportConfig}
    {s : State} (h : Inv logger urls quiet client s) {i : Nat} {t : Task}
    (hi : s.tasks[i]? = some t) : urls[i]? = some t.url := by
  have h1 : (s.tasks.map Task.url)[i]? = some t.url := by simp [hi]
  rw [h.tasks_urls, List.getElem?_take] at h1
  split at h1
  · exact h1
  · cases h1

theorem Inv.not_passed {logger : ZapConfig} {urls : List String} {quiet : Bool}
    {client : TransportConfig}
    {s : State} (h : Inv logger urls quiet client s) {i : Nat} {t : Task}
    (hi : s.tasks[i]? = some t) (hnd : t.pc.isDone = false) :
    s.mainPc.passedWait = false := by
  cases hp : s.mainPc.passedWait
  · rfl
  · have h1 := h.passed hp
    have h2 := countP_lt_of_getElem? (fun t => t.pc.isDone) hi hnd
    have h3 := h.tasks_le
    omega

theorem filter_task_append (l : List (Goroutine × Entry)) (i j : Nat) (es : List Entry) :
    ((l ++ es.map (fun e => (Goroutine.task i, e))).filter
        (fun e => decide (e.1 = Goroutine.task j))).map Prod.snd =
      (l.filter (fun e => decide (e.1 = Goroutine.task j))).map Prod.snd ++
        (if i = j then es else []) := by
  rw [List.filter_append, List.map_append]
  congr 1
  by_cases hij : i = j
  · subst hij
    induction es with
    | nil => simp
    | cons e es ih => simpa [List.filter_cons] using ih
  · induction es with
    | nil => simp [hij]
    | cons e es ih => simp [List.filter_cons, hij]

/-- The invariant is kept by a step that leaves the tasks, the status, the
counter and the position of `main` as they are and in which `main` makes the
logger calls `es`. -/
theorem inv_main_write {logger : ZapConfig} {urls : List String} {quiet : Bool}
    {client : TransportConfig} {s s1 : State} (h : Inv logger urls quiet client s)
    (es em : List (Goroutine × Entry)) (hmain : ∀ x ∈ es, x.1 = Goroutine.main)
    (hem : em.Sublist es) (hall : s.logger.sampling = none → em = es)
    (e_urls : s1.urls = s.urls) (e_quiet : s1.quiet = s.quiet)
    (e_client : s1.client = s.client) (e_logger : s1.logger = s.logger)
    (e_tasks : s1.tasks = s.tasks) (e_log : s1.log = s.log ++ es)
    (e_emitted : s1.emitted = s.emitted ++ em) (e_gets : s1.gets = s.gets)
    (e_wg : s1.wg = s.wg) (e_status : s1.status = s.status)
    (hpc : match s1.mainPc with
      | .loop i => s1.tasks.length = i ∧ i ≤ urls.length
      | .spawn i u => s1.tasks.length = i ∧ urls[i]? = some u
      | _ => s1.tasks.length = urls.length)
    (hpassed : s1.mainPc.passedWait = true →
      s1.tasks.countP (fun t => t.pc.isDone) = urls.length)
    (hcloses : s1.closes = if s1.mainPc = .syncing ∨ s1.mainPc = .returned then 1 else 0)
    (hnormal : s1.status = .exitedNormally ↔ s1.mainPc = .returned)
    (hdone : s1.mainPc.passedWait = true → s1.status ≠ .exitedFatal) :
    Inv logger urls quiet client s1 := by
  obtain ⟨g1, g2, g3, h1, h2, h3, h4, h5, h6, h7, h8, h9, h10, h11, h12, h13, h14, h16, h17,
    h15⟩ := h
  refine ⟨by rw [e_logger]; exact g1, ?_, ?_, by rw [e_urls]; exact h1,
    by rw [e_quiet]; exact h2, by rw [e_client]; exact h3, by rw [e_tasks]; exact h4, hpc,
    by rw [e_wg, e_tasks]; exact h6, hpassed, hcloses, hnormal,
    by rw [e_status]; exact h10, hdone, by rw [e_tasks, e_status]; exact h12,
    by rw [e_gets, e_tasks]; exact h13, by rw [e_gets]; exact h14,
    by rw [e_gets, e_tasks]; exact h16, by rw [e_gets]; exact h17, ?_⟩
  · rw [e_emitted, e_log]
    exact g2.append hem
  · intro hs
    rw [e_logger] at hs
    rw [e_emitted, e_log, g3 hs, hall hs]
  · intro j
    have hj := h15 j
    simp only [State.entriesOf] at hj ⊢
    rw [e_log, e_tasks, List.filter_append, List.map_append, hj]
    have : es.filter (fun e => decide (e.1 = Goroutine.task j)) = [] := by
      rw [List.filter_eq_nil_iff]
      intro x hx
      simp [hmain x hx]
    rw [this]
    simp

theorem inv_mainStep {logger : ZapConfig} {urls : List String} {quiet : Bool}
    {client : TransportConfig}
    {s s1 : State} (h : Inv logger urls quiet client s) (hrun : s.status = .running)
    (hs : mainStep s = some s1) : Inv logger urls quiet client s1 := by
  have h5 := h.pc_tasks
  have hu1 := h.urls_eq
  unfold mainStep at hs
  split at hs
  · -- loop
    rename_i i hpc
    rw [hpc] at h5
    split at hs
    · rename_i u hu
      simp only [Option.some.injEq] at hs
      subst hs
      rw [hu1] at hu
      obtain ⟨em, hem, hemit, hall⟩ := write_emitted s .main
        ⟨.Infow, "accessing url", [.str "url", .str u]⟩
      refine inv_main_write h
        [(Goroutine.main, ⟨.Infow, "accessing url", [.str "url", .str u]⟩)]
        (em.map (fun x => (Goroutine.main, x))) (by simp) (by simpa using hem.map _)
        (fun hn => by rw [hall hn]; rfl)
        (write_urls _ _ _) (write_quiet _ _ _) (write_client _ _ _) (write_logger _ _ _)
        (write_tasks _ _ _) (write_log _ _ _) hemit (write_gets _ _ _) (write_wg _ _ _)
        (write_status _ _ _) ?_ ?_ ?_ ?_ ?_
      · show (s.write _ _).tasks.length = i ∧ urls[i]? = some u
        rw [write_tasks]
        exact ⟨h5.1, hu⟩
      · intro hp
        simp [MainPc.passedWait] at hp
      · show (s.write _ _).closes = _
        rw [write_closes, h.closes_eq, hpc]
        simp
      · show (s.write _ _).status = _ ↔ _
        rw [write_status, hrun]
        simp
      · intro hp
        simp [MainPc.passedWait] at hp
    · rename_i hu
      simp only [Option.some.injEq] at hs
      subst hs
      rw [hu1] at hu
      have hlen : urls.length ≤ i := by simpa using hu
      refine inv_main_write h [] [] (by simp) (List.Sublist.refl _) (fun _ => rfl)
        rfl rfl rfl rfl rfl (by simp) (by simp) rfl rfl rfl ?_ ?_ ?_ ?_ ?_
      · show s.tasks.length = urls.length
        omega
      · intro hp
        simp [MainPc.passedWait] at hp
      · show s.closes = _
        rw [h.closes_eq, hpc]
        simp
      · show s.status = _ ↔ _
        rw [hrun]
        simp
      · intro hp
        simp [MainPc.passedWait] at hp
  · -- spawn
    rename_i i u hpc
    rw [hpc] at h5
    simp only [Option.some.injEq] at hs
    subst hs
    obtain ⟨g1, g2, g3, h1, h2, h3, h4, -, h6, h7, h8, h9, h10, h11, h12, h13, h14, h16, h17,
      h15⟩ := h
    obtain ⟨hlen, hu⟩ := h5
    have hi : i < urls.length := by
      rcases Nat.lt_or_ge i urls.length with hlt | hge
      · exact hlt
      · rw [List.getElem?_eq_none hge] at hu; cases hu
    constructor
    · exact g1
    · exact g2
    · exact g3
    · exact h1
    · exact h2
    · exact h3
    · simp only [List.map_append, List.length_append, List.length_singleton, hlen,
        List.map_cons, List.map_nil, List.take_succ, hu, Option.toList]
      rw [h4, hlen]
    · simp [hlen]; omega
    · simpa [List.countP_append, TaskPc.isDone] using h6
    · simp [MainPc.passedWait]
    · simpa [hpc] using h8
    · simpa [hpc] using h9
    · exact h10
    · simp [MainPc.passedWait]
    · simpa [List.countP_append, TaskPc.isFatal] using h12
    · simpa [List.filter_append, TaskPc.called] using h13
    · exact h14
    · intro g hg
      obtain ⟨t, ht, hc⟩ := h16 g hg
      refine ⟨t, ?_, hc⟩
      have hlt : g.task < s.tasks.length := by
        rcases Nat.lt_or_ge g.task s.tasks.length with hlt | hge
        · exact hlt
        · rw [List.getElem?_eq_none hge] at ht; cases ht
      show (s.tasks ++ [Task.mk u TaskPc.start])[g.task]? = some t
      rw [List.getElem?_append_left hlt]
      exact ht
    · exact h17
    · intro j
      have hj := h15 j
      simp only [State.entriesOf] at hj ⊢
      rw [hj]
      rcases Nat.lt_trichotomy j s.tasks.length with hlt | heq | hgt
      · rw [List.getElem?_append_left hlt]
      · subst heq
        simp [taskEntries]
      · rw [List.getElem?_eq_none (by omega), List.getElem?_eq_none (by simp; omega)]
  · -- wait
    rename_i hpc
    rw [hpc] at h5
    split at hs
    · rename_i hwg
      simp only [Option.some.injEq] at hs
      subst hs
      have hwgeq := h.wg_eq
      refine inv_main_write h [] [] (by simp) (List.Sublist.refl _) (fun _ => rfl)
        rfl rfl rfl rfl rfl (by simp) (by simp) rfl rfl rfl ?_ ?_ ?_ ?_ ?_
      · exact h5
      · intro _
        show s.tasks.countP (fun t => t.pc.isDone) = urls.length
        omega
      · show s.closes = _
        rw [h.closes_eq, hpc]
        simp
      · show s.status = _ ↔ _
        rw [hrun]
        simp
      · intro _
        show s.status ≠ _
        rw [hrun]
        simp
    · cases hs
  · -- closing
    rename_i hpc
    rw [hpc] at h5
    simp only [Option.some.injEq] at hs
    subst hs
    refine inv_main_write h [] [] (by simp) (List.Sublist.refl _) (fun _ => rfl)
      rfl rfl rfl rfl rfl (by simp) (by simp) rfl rfl rfl ?_ ?_ ?_ ?_ ?_
    · exact h5
    · intro _
      exact h.passed (by simp [hpc, MainPc.passedWait])
    · show s.closes + 1 = _
      rw [h.closes_eq, hpc]
      simp
    · show s.status = _ ↔ _
      rw [hrun]
      simp
    · intro _
      show s.status ≠ _
      rw [hrun]
      simp
  · -- syncing
    rename_i hpc
    rw [hpc] at h5
    simp only [Option.some.injEq] at hs
    subst hs
    obtain ⟨g1, g2, g3, h1, h2, h3, h4, -, h6, h7, h8, h9, h10, h11, h12, h13, h14, h16, h17,
      h15⟩ := h
    have hp : s.mainPc.passedWait = true := by simp [hpc, MainPc.passedWait]
    constructor
    · exact g1
    · exact g2
    · exact g3
    · exact h1
    · exact h2
    · exact h3
    · exact h4
    · exact h5
    · exact h6
    · intro _; exact h7 hp
    · show s.closes = _
      rw [h8, hpc]
      simp
    · simp
    · simp
    · simp
    · show s.tasks.countP (fun t => t.pc.isFatal) = if Status.exitedNormally = Status.exitedFatal then 1 else 0
      rw [h12, hrun]
      simp
    · exact h13
    · exact h14
    · exact h16
    · exact h17
    · exact h15
  · cases hs

/-- The invariant is kept by any step of goroutine `i` that moves it to `pc`,
makes the logger calls `es`, of which the logger writes `em`, makes the calls
`gs` of `hclient.Get`, leaves the process in status `st` and lowers the
counter by one exactly when `pc` is past `wg.Done()`. -/
theorem inv_update {logger : ZapConfig} {urls : List String} {quiet : Bool}
    {client : TransportConfig}
    {s s1 : State} (h : Inv logger urls quiet client s)
    {i : Nat} {t : Task} (hi : s.tasks[i]? = some t)
    (hnd : t.pc.isDone = false) (hnf : t.pc.isFatal = false)
    (pc : TaskPc) (es em : List Entry) (gs : List GetCall) (st : Status)
    (hes : taskEntries quiet ⟨t.url, pc⟩ = taskEntries quiet t ++ es)
    (hgs : (pc.called = t.pc.called ∧ gs = []) ∨
      (t.pc.called = false ∧ pc.called = true ∧ gs = [GetCall.mk i t.url s.client]))
    (hst : (st = s.status ∧ pc.isFatal = false) ∨
      (st = .exitedFatal ∧ s.status = .running ∧ pc.isFatal = true))
    (hem : em.Sublist es) (hall : s.logger.sampling = none → em = es)
    (e_urls : s1.urls = s.urls) (e_quiet : s1.quiet = s.quiet)
    (e_client : s1.client = s.client) (e_logger : s1.logger = s.logger)
    (e_main : s1.mainPc = s.mainPc) (e_closes : s1.closes = s.closes)
    (e_tasks : s1.tasks = s.tasks.set i ⟨t.url, pc⟩)
    (e_log : s1.log = s.log ++ es.map (fun e => (Goroutine.task i, e)))
    (e_emitted : s1.emitted = s.emitted ++ em.map (fun e => (Goroutine.task i, e)))
    (e_gets : s1.gets = s.gets ++ gs) (e_status : s1.status = st)
    (e_wg : s1.wg = s.wg - (if pc.isDone = true then 1 else 0)) :
    Inv logger urls quiet client s1 := by
  have hnp := h.not_passed hi hnd
  have hurl := h.url_at hi
  have hlt := countP_lt_of_getElem? (fun t : Task => t.pc.isDone) hi hnd
  have hle := h.tasks_le
  obtain ⟨g1, g2, g3, h1, h2, h3, h4, h5, h6, h7, h8, h9, h10, h11, h12, h13, h14, h16, h17,
    h15⟩ := h
  have hnotret : s.mainPc ≠ .returned := by
    intro hc; rw [hc] at hnp; simp [MainPc.passedWait] at hnp
  refine ⟨by rw [e_logger]; exact g1, ?_, ?_, by rw [e_urls]; exact h1,
    by rw [e_quiet]; exact h2, by rw [e_client]; exact h3, ?_, ?_, ?_, ?_,
    by rw [e_closes, e_main]; exact h8, ?_, ?_, ?_, ?_, ?_, ?_, ?_, ?_, ?_⟩
  · rw [e_emitted, e_log]
    exact g2.append (hem.map _)
  · intro hs
    rw [e_logger] at hs
    rw [e_emitted, e_log, g3 hs, hall hs]
  · rw [e_tasks, map_set_same Task.url (u := ⟨t.url, pc⟩) hi rfl, List.length_set]
    exact h4
  · rw [e_main, e_tasks, List.length_set]
    exact h5
  · rw [e_wg, e_tasks]
    cases hd : pc.isDone
    · rw [countP_set_same (fun t : Task => t.pc.isDone) hi (by simp [hd, hnd])]
      simp [h6]
    · rw [countP_set_new (fun t : Task => t.pc.isDone) hi hnd (by simp [hd])]
      simp [h6]
      omega
  · intro hp
    rw [e_main, hnp] at hp
    cases hp
  · rw [e_status, e_main]
    rcases hst with ⟨rfl, _⟩ | ⟨rfl, _, _⟩
    · exact h9
    · simp [hnotret]
  · rw [e_status]
    rcases hst with ⟨rfl, _⟩ | ⟨rfl, _, _⟩
    · exact h10
    · simp
  · intro hp
    rw [e_main, hnp] at hp
    cases hp
  · rw [e_tasks, e_status]
    rcases hst with ⟨rfl, hf⟩ | ⟨rfl, hr, hf⟩
    · rw [countP_set_same (fun t : Task => t.pc.isFatal) hi (by simp [hf, hnf])]
      exact h12
    · rw [countP_set_new (fun t : Task => t.pc.isFatal) hi hnf (by simp [hf]), h12]
      simp [hr]
  · rw [e_gets, e_tasks]
    rcases hgs with ⟨hc, rfl⟩ | ⟨hc, hc1, rfl⟩
    · rw [filter_map_set_same (fun t : Task => t.pc.called) Task.url (u := ⟨t.url, pc⟩) hi
        (by simp [hc]) rfl]
      simpa using h13
    · have := filter_map_set_new (fun t : Task => t.pc.called) Task.url
        (u := ⟨t.url, pc⟩) hi hc (by simp [hc1])
      refine List.Perm.trans ?_ this.symm
      rw [List.map_append]
      refine List.Perm.trans (List.perm_append_comm) ?_
      simpa using h13
  · intro g hg
    rw [e_gets] at hg
    rcases List.mem_append.mp hg with hg | hg
    · exact h14 g hg
    · rcases hgs with ⟨_, rfl⟩ | ⟨_, _, rfl⟩
      · cases hg
      · rw [List.mem_singleton] at hg
        subst hg
        exact ⟨h3, hurl⟩
  · intro g hg
    rw [e_gets] at hg
    rw [e_tasks]
    have hold : ∀ g ∈ s.gets, ∃ t1, (s.tasks.set i ⟨t.url, pc⟩)[g.task]? = some t1 ∧
        t1.pc.called = true := by
      intro g hg
      obtain ⟨t0, ht0, hc0⟩ := h16 g hg
      by_cases hig : i = g.task
      · subst hig
        rw [hi] at ht0
        cases ht0
        refine ⟨⟨t.url, pc⟩, getElem?_set_self_of hi, ?_⟩
        rcases hgs with ⟨hc, _⟩ | ⟨hc, _, _⟩
        · rw [← hc0]; exact hc
        · rw [hc] at hc0; cases hc0
      · exact ⟨t0, by rw [List.getElem?_set_ne hig]; exact ht0, hc0⟩
    rcases List.mem_append.mp hg with hg | hg
    · exact hold g hg
    · rcases hgs with ⟨_, rfl⟩ | ⟨_, hc1, rfl⟩
      · cases hg
      · rw [List.mem_singleton] at hg
        subst hg
        exact ⟨⟨t.url, pc⟩, getElem?_set_self_of hi, hc1⟩
  · rw [e_gets]
    rcases hgs with ⟨_, rfl⟩ | ⟨hc, _, rfl⟩
    · simpa using h17
    · rw [List.map_append, List.nodup_append]
      refine ⟨h17, by simp, ?_⟩
      intro a ha hb
      rw [List.map_singleton, List.mem_singleton] at hb
      subst hb
      obtain ⟨g, hg, rfl⟩ := List.mem_map.mp ha
      obtain ⟨t0, ht0, hc0⟩ := h16 g hg
      rw [hi] at ht0
      cases ht0
      rw [hc] at hc0
      cases hc0
  · intro j
    have hj := h15 j
    simp only [State.entriesOf] at hj ⊢
    rw [e_log, e_tasks, filter_task_append, hj]
    by_cases hij : i = j
    · subst hij
      rw [getElem?_set_self_of hi, hi, if_pos rfl]
      exact hes.symm
    · rw [List.getElem?_set_ne hij, if_neg hij, List.append_nil]

/-- The invariant is kept by a goroutine's step that calls the logger once. -/
theorem inv_task_write {logger : ZapConfig} {urls : List String} {quiet : Bool}
    {client : TransportConfig}
    {s : State} (h : Inv logger urls quiet client s)
    {i : Nat} {t : Task} (hi : s.tasks[i]? = some t)
    (hnd : t.pc.isDone = false) (hnf : t.pc.isFatal = false)
    (pc : TaskPc) (e : Entry) (st : Status)
    (hes : taskEntries quiet ⟨t.url, pc⟩ = taskEntries quiet t ++ [e])
    (hc : pc.called = t.pc.called) (hd : pc.isDone = false)
    (hst : (st = s.status ∧ pc.isFatal = false) ∨
      (st = .exitedFatal ∧ s.status = .running ∧ pc.isFatal = true)) :
    Inv logger urls quiet client
      (State.setPc { s.write (.task i) e with status := st } i t pc) := by
  obtain ⟨em, hem, hemit, hall⟩ := write_emitted s (.task i) e
  exact inv_update h hi hnd hnf pc [e] em [] st hes (Or.inl ⟨hc, rfl⟩) hst hem hall
    (write_urls _ _ _) (write_quiet _ _ _) (write_client _ _ _) (write_logger _ _ _)
    (write_mainPc _ _ _) (write_closes _ _ _)
    (by show (s.write _ _).tasks.set i _ = _; rw [write_tasks])
    (write_log _ _ _) hemit
    (by show (s.write _ _).gets = _; rw [write_gets]; simp)
    rfl
    (by show (s.write _ _).wg = _; rw [write_wg, hd]; simp)

/-- The invariant is kept by a goroutine's step that does not call the logger. -/
theorem inv_task_silent {logger : ZapConfig} {urls : List String} {quiet : Bool}
    {client : TransportConfig}
    {s s1 : State} (h : Inv logger urls quiet client s)
    {i : Nat} {t : Task} (hi : s.tasks[i]? = some t)
    (hnd : t.pc.isDone = false) (hnf : t.pc.isFatal = false)
    (pc : TaskPc) (gs : List GetCall)
    (hes : taskEntries quiet ⟨t.url, pc⟩ = taskEntries quiet t)
    (hgs : (pc.called = t.pc.called ∧ gs = []) ∨
      (t.pc.called = false ∧ pc.called = true ∧ gs = [GetCall.mk i t.url s.client]))
    (hf : pc.isFatal = false)
    (e_urls : s1.urls = s.urls) (e_quiet : s1.quiet = s.quiet)
    (e_client : s1.client = s.client) (e_logger : s1.logger = s.logger)
    (e_main : s1.mainPc = s.mainPc) (e_closes : s1.closes = s.closes)
    (e_tasks : s1.tasks = s.tasks.set i ⟨t.url, pc⟩)
    (e_log : s1.log = s.log) (e_emitted : s1.emitted = s.emitted)
    (e_gets : s1.gets = s.gets ++ gs) (e_status : s1.status = s.status)
    (e_wg : s1.wg = s.wg - (if pc.isDone = true then 1 else 0)) :
    Inv logger urls quiet client s1 :=
  inv_update h hi hnd hnf pc [] [] gs s.status (by simpa using hes) hgs (Or.inl ⟨rfl, hf⟩)
    (List.Sublist.refl _) (fun _ => rfl) e_urls e_quiet e_client e_logger e_main e_closes
    e_tasks (by simpa using e_log) (by simpa using e_emitted) e_gets e_status e_wg

theorem inv_step {logger : ZapConfig} {urls : List String} {quiet : Bool}
    {client : TransportConfig}
    {s s1 : State} (h : Inv logger urls quiet client s) {a : Action}
    (hs : step s a = some s1) : Inv logger urls quiet client s1 := by
  unfold step at hs
  split at hs
  · cases hs
  · rename_i hrun
    have hrun : s.status = .running := by simpa using hrun
    cases a with
    | main => exact inv_mainStep h hrun hs
    | get i result =>
      simp only at hs
      split at hs
      · rename_i t hi
        split at hs
        · rename_i hpc
          cases result with
          | error err =>
            simp only [Option.some.injEq] at hs
            subst hs
            exact inv_task_silent h hi (by simp [hpc, TaskPc.isDone])
              (by simp [hpc, TaskPc.isFatal]) (.getFailed err) [GetCall.mk i t.url s.client]
              (by simp [taskEntries, hpc])
              (Or.inr ⟨by simp [hpc, TaskPc.called], by simp [TaskPc.called], rfl⟩)
              (by simp [TaskPc.isFatal]) rfl rfl rfl rfl rfl rfl rfl rfl rfl rfl rfl
              (by simp [State.setPc, TaskPc.isDone])
          | ok response =>
            simp only [Option.some.injEq] at hs
            subst hs
            exact inv_task_silent h hi (by simp [hpc, TaskPc.isDone])
              (by simp [hpc, TaskPc.isFatal]) (.getOk response) [GetCall.mk i t.url s.client]
              (by simp [taskEntries, hpc])
              (Or.inr ⟨by simp [hpc, TaskPc.called], by simp [TaskPc.called], rfl⟩)
              (by simp [TaskPc.isFatal]) rfl rfl rfl rfl rfl rfl rfl rfl rfl rfl rfl
              (by simp [State.setPc, TaskPc.isDone])
        · cases hs
      · cases hs
    | copy i body err =>
      simp only at hs
      split at hs
      · rename_i t hi
        split at hs
        · rename_i response hpc
          simp only [Option.some.injEq] at hs
          subst hs
          exact inv_task_silent h hi (by simp [hpc, TaskPc.isDone])
            (by simp [hpc, TaskPc.isFatal]) (.copied response body err) []
            (by simp [taskEntries, hpc])
            (Or.inl ⟨by simp [hpc, TaskPc.called], rfl⟩)
            (by simp [TaskPc.isFatal]) rfl rfl rfl rfl rfl rfl rfl rfl rfl
            (by simp [State.setPc]) rfl (by simp [State.setPc, TaskPc.isDone])
        · cases hs
      · cases hs
    | advance i =>
      simp only at hs
      split at hs
      · rename_i t hi
        unfold localStep at hs
        split at hs
        · rename_i err hpc
          simp only [Option.some.injEq] at hs
          subst hs
          exact inv_task_write h hi (by simp [hpc, TaskPc.isDone])
            (by simp [hpc, TaskPc.isFatal]) (.fatalGet err) (getFatalEntry t.url err)
            .exitedFatal (by simp [taskEntries, hpc])
            (by simp [hpc, TaskPc.called]) (by simp [TaskPc.isDone])
            (Or.inr ⟨rfl, hrun, by simp [TaskPc.isFatal]⟩)
        · rename_i response hpc
          simp only [Option.some.injEq] at hs
          subst hs
          have := inv_task_write h hi (by simp [hpc, TaskPc.isDone])
            (by simp [hpc, TaskPc.isFatal]) (.received response)
            (receivedEntry t.url response) s.status (by simp [taskEntries, hpc])
            (by simp [hpc, TaskPc.called]) (by simp [TaskPc.isDone])
            (Or.inl ⟨rfl, by simp [TaskPc.isFatal]⟩)
          rw [← write_status s (.task i) (receivedEntry t.url response)] at this
          exact this
        · rename_i response body err hpc
          simp only [Option.some.injEq] at hs
          subst hs
          exact inv_task_write h hi (by simp [hpc, TaskPc.isDone])
            (by simp [hpc, TaskPc.isFatal]) (.fatalCopy response body err)
            (copyFatalEntry err) .exitedFatal (by simp [taskEntries, hpc])
            (by simp [hpc, TaskPc.called]) (by simp [TaskPc.isDone])
            (Or.inr ⟨rfl, hrun, by simp [TaskPc.isFatal]⟩)
        · rename_i response body hpc
          simp only [Option.some.injEq] at hs
          subst hs
          obtain rfl := h.quiet_eq
          have := inv_task_write h hi (by simp [hpc, TaskPc.isDone])
            (by simp [hpc, TaskPc.isFatal]) (.reported response body)
            (report s.quiet body) s.status (by simp [taskEntries, hpc])
            (by simp [hpc, TaskPc.called]) (by simp [TaskPc.isDone])
            (Or.inl ⟨rfl, by simp [TaskPc.isFatal]⟩)
          rw [← write_status s (.task i) (report s.quiet body)] at this
          exact this
        · rename_i response body hpc
          simp only [Option.some.injEq] at hs
          subst hs
          have hnd : t.pc.isDone = false := by simp [hpc, TaskPc.isDone]
          have hlt := countP_lt_of_getElem? (fun t : Task => t.pc.isDone) hi hnd
          have hle := h.tasks_le
          have hwg : ¬ (s.wg - 1 < 0) := by
            rw [h.wg_eq]; omega
          exact inv_task_silent h hi hnd (by simp [hpc, TaskPc.isFatal])
            (.done response body) [] (by simp [taskEntries, hpc])
            (Or.inl ⟨by simp [hpc, TaskPc.called], rfl⟩)
            (by simp [TaskPc.isFatal]) rfl rfl rfl rfl rfl rfl rfl rfl rfl
            (by simp [State.setPc, State.wgDone])
            (by simp [State.setPc, State.wgDone, hwg])
            (by simp [State.setPc, State.wgDone, TaskPc.isDone])
        · cases hs
      · cases hs
    | expire level message =>
      simp only [Option.some.injEq] at hs
      subst hs
      obtain ⟨g1, g2, g3, h1, h2, h3, h4, h5, h6, h7, h8, h9, h10, h11, h12, h13, h14, h16,
        h17, h15⟩ := h
      exact ⟨g1, g2, g3, h1, h2, h3, h4, h5, h6, h7, h8, h9, h10, h11, h12, h13, h14, h16,
        h17, h15⟩

theorem next_eq_or (s : State) (a : Action) :
    next s a = s ∨ step s a = some (next s a) := by
  unfold next
  cases h : step s a with
  | none => left; rfl
  | some s1 => right; rfl

theorem inv_next {logger : ZapConfig} {urls : List String} {quiet : Bool}
    {client : TransportConfig}
    {s : State} (h : Inv logger urls quiet client s) (a : Action) :
    Inv logger urls quiet client (next s a) := by
  rcases next_eq_or s a with h1 | h1
  · rw [h1]; exact h
  · exact inv_step h h1

theorem inv_run_from {logger : ZapConfig} {urls : List String} {quiet : Bool}
    {client : TransportConfig}
    (acts : List Action) {s : State} (h : Inv logger urls quiet client s) :
    Inv logger urls quiet client (run s acts) := by
  induction acts generalizing s with
  | nil => exact h
  | cons a acts ih => exact ih (inv_next h a)

theorem inv_run (logger : ZapConfig) (urls : List String) (quiet : Bool)
    (client : TransportConfig) (acts : List Action) :
    Inv logger urls quiet client (run (fanStart logger urls quiet client) acts) :=
  inv_run_from acts (inv_start logger urls quiet client)

/-! ## Lemmas on runs -/

theorem step_none_of_not_running {s : State} (h : s.status ≠ .running) (a : Action) :
    step s a = none := by
  unfold step
  rw [if_pos h]

theorem run_of_not_running {s : State} (h : s.status ≠ .running) (acts : List Action) :
    run s acts = s := by
  induction acts with
  | nil => rfl
  | cons a acts ih =>
    show run (next s a) acts = s
    have : next s a = s := by simp [next, step_none_of_not_running h]
    rw [this]
    exact ih

theorem loop_step_enabled (s : State) (hrun : s.status = .running)
    (hloop : s.mainPc.leftLoop = false) : ∃ s1, step s .main = some s1 := by
  unfold step
  rw [if_neg (by simp [hrun])]
  simp only [mainStep]
  cases hpc : s.mainPc with
  | loop i =>
    simp only
    cases s.urls[i]? <;> simp
  | spawn i u => simp
  | wait => simp [hpc, MainPc.leftLoop] at hloop
  | closing => simp [hpc, MainPc.leftLoop] at hloop
  | syncing => simp [hpc, MainPc.leftLoop] at hloop
  | returned => simp [hpc, MainPc.leftLoop] at hloop

theorem isDone_iff (pc : TaskPc) :
    pc.isDone = true ↔ ∃ response body, pc = TaskPc.done response body := by
  cases pc <;> simp [TaskPc.isDone]

theorem allDone_of_count {logger : ZapConfig} {urls : List String} {quiet : Bool}
    {client : TransportConfig}
    {s : State} (h : Inv logger urls quiet client s) (hlen : s.tasks.length = urls.length)
    (hc : s.tasks.countP (fun t => t.pc.isDone) = urls.length) : s.allDone := by
  refine ⟨by rw [h.urls_eq]; exact hlen, ?_⟩
  rw [← hlen] at hc
  have hall := List.countP_eq_length.mp hc
  intro t ht
  have hd := hall t ht
  obtain ⟨r, b, hpc⟩ := (isDone_iff t.pc).mp hd
  exact ⟨⟨r, b, hpc⟩, by simp [hpc, TaskPc.isFatal]⟩

theorem allDone_of_passed {logger : ZapConfig} {urls : List String} {quiet : Bool}
    {client : TransportConfig}
    {s : State} (h : Inv logger urls quiet client s) (hp : s.mainPc.passedWait = true) :
    s.allDone := by
  have hlen : s.tasks.length = urls.length := by
    have := h.pc_tasks
    cases hpc : s.mainPc <;> simp_all [MainPc.passedWait]
  exact allDone_of_count h hlen (h.passed hp)

theorem entries_of_success {logger : ZapConfig} {urls : List String} {quiet : Bool}
    {client : TransportConfig}
    {s : State} (hinv : Inv logger urls quiet client s) {i : Nat} {t : Task}
    {response : Response} {body : Bytes} (hi : s.tasks[i]? = some t)
    (hpc : t.pc = .reported response body ∨ t.pc = .done response body) :
    s.entriesOf i = [receivedEntry t.url response, report quiet body] := by
  have := hinv.log_task i
  rw [hi] at this
  rw [this]
  rcases hpc with h | h <;> simp [taskEntries, h]

theorem run_append (s : State) (xs ys : List Action) :
    run s (xs ++ ys) = run (run s xs) ys := by
  simp [run, List.foldl_append]

theorem emptyAt_succ (logger : ZapConfig) (quiet : Bool) (client : TransportConfig) (k : Nat) :
    emptyAt logger quiet client (k + 1) = next (emptyAt logger quiet client k) .main := by
  unfold emptyAt
  rw [List.replicate_succ', run_append]
  rfl

theorem emptyAt_ge (logger : ZapConfig) (quiet : Bool) (client : TransportConfig) (k : Nat) :
    emptyAt logger quiet client (k + 4) = emptyAt logger quiet client 4 := by
  induction k with
  | zero => rfl
  | succ k ih =>
    rw [show k + 1 + 4 = (k + 4) + 1 from by omega, emptyAt_succ, ih]
    rfl

theorem emptyAt_min (logger : ZapConfig) (quiet : Bool) (client : TransportConfig) (k : Nat) :
    emptyAt logger quiet client k = emptyAt logger quiet client (min k 4) := by
  rcases Nat.lt_or_ge k 4 with h | h
  · rw [Nat.min_eq_left (by omega)]
  · obtain ⟨j, rfl⟩ := Nat.exists_eq_add_of_le' h
    rw [emptyAt_ge, Nat.min_eq_right (by omega)]

theorem emptyAt_tasks (logger : ZapConfig) (quiet : Bool) (client : TransportConfig) (k : Nat) :
    (emptyAt logger quiet client k).tasks = [] ∧ (emptyAt logger quiet client k).gets = [] := by
  rw [emptyAt_min]
  have : min k 4 = 0 ∨ min k 4 = 1 ∨ min k 4 = 2 ∨ min k 4 = 3 ∨ min k 4 = 4 := by omega
  rcases this with h | h | h | h | h <;> rw [h] <;> exact ⟨rfl, rfl⟩

theorem emptyAt_counts (logger : ZapConfig) (quiet : Bool) (client : TransportConfig)
    (k : Nat) : (emptyAt logger quiet client k).counts = [] := by
  rw [emptyAt_min]
  have : min k 4 = 0 ∨ min k 4 = 1 ∨ min k 4 = 2 ∨ min k 4 = 3 ∨ min k 4 = 4 := by omega
  rcases this with h | h | h | h | h <;> rw [h] <;> rfl

theorem next_of_no_tasks (s : State) (a : Action) (ht : s.tasks = []) (hc : s.counts = [])
    (ha : a.isMain = false) : next s a = s := by
  unfold next step
  split
  · rfl
  · cases a with
    | main => simp [Action.isMain] at ha
    | get i result => simp [ht]
    | copy i body err => simp [ht]
    | advance i => simp [ht]
    | expire level message =>
      cases s
      simp only at hc
      subst hc
      rfl

theorem run_emptyAt (logger : ZapConfig) (quiet : Bool) (client : TransportConfig)
    (acts : List Action) (k : Nat) :
    run (emptyAt logger quiet client k) acts =
      emptyAt logger quiet client (k + acts.countP Action.isMain) := by
  induction acts generalizing k with
  | nil => rfl
  | cons a acts ih =>
    show run (next (emptyAt logger quiet client k) a) acts = _
    cases ha : a.isMain
    · rw [next_of_no_tasks _ a (emptyAt_tasks logger quiet client k).1
        (emptyAt_counts logger quiet client k) ha, ih]
      simp [List.countP_cons, ha]
    · have : a = .main := by cases a <;> simp_all [Action.isMain]
      subst this
      rw [← emptyAt_succ, ih]
      simp [List.countP_cons, Action.isMain]
      congr 1
      omega

/-! ## Lemmas on the sampler and on a schedule of rounds -/

theorem next_loop {s : State} {k : Nat} {u : String} (hrun : s.status = .running)
    (hpc : s.mainPc = .loop k) (hu : s.urls[k]? = some u) :
    next s .main =
      { s.write .main ⟨.Infow, "accessing url", [.str "url", .str u]⟩ with
        mainPc := .spawn k u } := by
  simp [next, step, hrun, mainStep, hpc, hu]

theorem next_spawn {s : State} {k : Nat} {u : String} (hrun : s.status = .running)
    (hpc : s.mainPc = .spawn k u) :
    next s .main = { s with tasks := s.tasks ++ [⟨u, .start⟩], mainPc := .loop (k + 1) } := by
  simp [next, step, hrun, mainStep, hpc]

theorem next_get_ok {s : State} {i : Nat} {t : Task} (r : Response)
    (hrun : s.status = .running) (hi : s.tasks[i]? = some t) (hpc : t.pc = .start) :
    next s (.get i (.ok r)) =
      State.setPc { s with gets := s.gets ++ [GetCall.mk i t.url s.client] } i t (.getOk r) := by
  simp [next, step, hrun, hi, hpc]

theorem next_advance_getOk {s : State} {i : Nat} {t : Task} {r : Response}
    (hrun : s.status = .running) (hi : s.tasks[i]? = some t) (hpc : t.pc = .getOk r) :
    next s (.advance i) = (s.info i (receivedEntry t.url r)).setPc i t (.received r) := by
  simp [next, step, hrun, hi, localStep, hpc, receivedEntry]

theorem next_copy {s : State} {i : Nat} {t : Task} {r : Response} (b : Bytes)
    (err : Option GoError)
    (hrun : s.status = .running) (hi : s.tasks[i]? = some t) (hpc : t.pc = .received r) :
    next s (.copy i b err) = s.setPc i t (.copied r b err) := by
  simp [next, step, hrun, hi, hpc]

theorem next_advance_copied {s : State} {i : Nat} {t : Task} {r : Response} {b : Bytes}
    (hrun : s.status = .running) (hi : s.tasks[i]? = some t) (hpc : t.pc = .copied r b none) :
    next s (.advance i) = (s.info i (report s.quiet b)).setPc i t (.reported r b) := by
  simp [next, step, hrun, hi, localStep, hpc]

theorem next_advance_reported {s : State} {i : Nat} {t : Task} {r : Response} {b : Bytes}
    (hrun : s.status = .running) (hi : s.tasks[i]? = some t) (hpc : t.pc = .reported r b) :
    next s (.advance i) = s.wgDone.setPc i t (.done r b) := by
  simp [next, step, hrun, hi, localStep, hpc]

theorem find_reset_ne (c : Counters) {key key1 : Level × Message} (h : key1 ≠ key) :
    (c.reset key).find? (fun x => decide (x.1 = key1)) =
      c.find? (fun x => decide (x.1 = key1)) := by
  unfold Counters.reset
  induction c with
  | nil => rfl
  | cons x c ih =>
    rw [List.filter_cons]
    split
    · rw [List.find?_cons, List.find?_cons]
      split
      · rfl
      · exact ih
    · rename_i hx
      have hx0 : x.1 = key := by simpa using hx
      have hx1 : decide (x.1 = key1) = false := by
        rw [decide_eq_false_iff_not, hx0]
        exact fun h1 => h h1.symm
      rw [ih, List.find?_cons, hx1]

theorem get_set_self (c : Counters) (key : Level × Message) (n : Nat) :
    (c.set key n).get key = n := by
  simp [Counters.set, Counters.get, List.find?_cons]

theorem get_set_ne (c : Counters) {key key1 : Level × Message} (n : Nat) (h : key1 ≠ key) :
    (c.set key n).get key1 = c.get key1 := by
  have hne : ¬ key = key1 := fun h1 => h h1.symm
  simp only [Counters.set, Counters.get, List.find?_cons, hne, decide_False]
  rw [find_reset_ne c h]

theorem write_counts {s : State} {p : Sampling} (hs : s.logger.sampling = some p)
    (g : Goroutine) (e : Entry) :
    (s.write g e).counts =
      s.counts.set (e.call.level, e.message) (s.counts.get (e.call.level, e.message) + 1) := by
  unfold State.write
  rw [hs]
  dsimp only
  split <;> rfl

theorem write_dropped {s : State} {p : Sampling} (hs : s.logger.sampling = some p)
    (g : Goroutine) (e : Entry)
    (hd : p.drops (s.counts.get (e.call.level, e.message) + 1) = true) :
    (s.write g e).emitted = s.emitted := by
  unfold State.write
  rw [hs]
  dsimp only
  rw [if_pos hd]

theorem round_step {urls : List String} {client : TransportConfig} {k : Nat} {s : State}
    {u : String} (h : RoundInv urls client k s) (hu : urls[k]? = some u) :
    RoundInv urls client (k + 1) (run s (round k)) ∧
    (run s (round k)).tasks[k]? = some ⟨u, .done ⟨200⟩ []⟩ ∧
    (k = 100 → (run s (round k)).emitted = s.emitted) := by
  obtain ⟨hinv, hrun, hpc, cA, cR, cB⟩ := h
  have hlen : s.tasks.length = k := by
    have := hinv.pc_tasks
    rw [hpc] at this
    exact this.1
  have hsamp : ∀ {x : State}, Inv .production urls true client x →
      x.logger.sampling = some ⟨100, 100⟩ := by
    intro x hx
    rw [hx.logger_eq]
    rfl
  have hdrop : ∀ n, n = 100 → (Sampling.mk 100 100).drops (n + 1) = true := by
    intro n hn
    subst hn
    decide
  -- step 1: `main` logs
  have e1 := next_loop hrun hpc (by rw [hinv.urls_eq]; exact hu)
  have i1 := inv_next hinv .main
  generalize d1 : next s .main = s1 at e1 i1
  have r1 : s1.status = .running := by rw [e1]; simpa [write_status] using hrun
  have t1 : s1.tasks = s.tasks := by rw [e1]; simp [write_tasks]
  have c1 : s1.counts = s.counts.set (.info, ⟨"accessing url", []⟩) (k + 1) := by
    rw [e1]
    show (s.write _ _).counts = _
    rw [write_counts (hsamp hinv), ← cA]
    rfl
  have m1 : k = 100 → s1.emitted = s.emitted := by
    intro hk
    rw [e1]
    show (s.write _ _).emitted = _
    exact write_dropped (hsamp hinv) _ _ (by
      show (Sampling.mk 100 100).drops (s.counts.get (.info, ⟨"accessing url", []⟩) + 1) = true
      rw [cA]; exact hdrop k hk)
  have p1 : s1.mainPc = .spawn k u := by rw [e1]
  -- step 2: `main` launches goroutine `k`
  have e2 := next_spawn r1 p1
  have i2 := inv_next i1 .main
  generalize d2 : next s1 .main = s2 at e2 i2
  have r2 : s2.status = .running := by rw [e2]; exact r1
  have t2 : s2.tasks[k]? = some ⟨u, .start⟩ := by
    rw [e2]
    show (s1.tasks ++ [_])[k]? = _
    rw [t1, List.getElem?_append_right (by omega), hlen]
    simp
  have c2 : s2.counts = s1.counts := by rw [e2]
  have m2 : s2.emitted = s1.emitted := by rw [e2]
  have p2 : s2.mainPc = .loop (k + 1) := by rw [e2]
  -- step 3: `hclient.Get` returns a response
  have e3 := next_get_ok ⟨200⟩ r2 t2 rfl
  have i3 := inv_next i2 (.get k (.ok ⟨200⟩))
  generalize d3 : next s2 (.get k (.ok ⟨200⟩)) = s3 at e3 i3
  have r3 : s3.status = .running := by rw [e3]; exact r2
  have t3 : s3.tasks[k]? = some ⟨u, .getOk ⟨200⟩⟩ := by
    rw [e3]
    exact getElem?_set_self_of t2
  have c3 : s3.counts = s2.counts := by rw [e3]; rfl
  have m3 : s3.emitted = s2.emitted := by rw [e3]; rfl
  have p3 : s3.mainPc = .loop (k + 1) := by rw [e3]; exact p2
  -- step 4: the receipt is logged
  have e4 := next_advance_getOk r3 t3 rfl
  have i4 := inv_next i3 (.advance k)
  generalize d4 : next s3 (.advance k) = s4 at e4 i4
  have r4 : s4.status = .running := by
    rw [e4]
    show (s3.write _ _).status = _
    rw [write_status]; exact r3
  have t4 : s4.tasks[k]? = some ⟨u, .received ⟨200⟩⟩ := by
    rw [e4]
    show ((s3.write _ _).tasks.set k _)[k]? = _
    rw [write_tasks]
    exact getElem?_set_self_of t3
  have c4 : s4.counts = s3.counts.set (.info, ⟨"response received", []⟩)
      (s3.counts.get (.info, ⟨"response received", []⟩) + 1) := by
    rw [e4]
    show (s3.write _ _).counts = _
    rw [write_counts (hsamp i3)]
    rfl
  have g3 : s3.counts.get (.info, ⟨"response received", []⟩) = k := by
    rw [c3, c2, c1, get_set_ne _ _ (by decide), cR]
  have m4 : k = 100 → s4.emitted = s3.emitted := by
    intro hk
    rw [e4]
    show (s3.write _ _).emitted = _
    exact write_dropped (hsamp i3) _ _ (by
      show (Sampling.mk 100 100).drops
        (s3.counts.get (.info, ⟨"response received", []⟩) + 1) = true
      rw [g3]; exact hdrop k hk)
  have p4 : s4.mainPc = .loop (k + 1) := by
    rw [e4]
    show (s3.write _ _).mainPc = _
    rw [write_mainPc]; exact p3
  have q4 : s4.quiet = true := i4.quiet_eq
  -- step 5: `io.Copy` returns
  have e5 := next_copy [] none r4 t4 rfl
  have i5 := inv_next i4 (.copy k [] none)
  generalize d5 : next s4 (.copy k [] none) = s5 at e5 i5
  have r5 : s5.status = .running := by rw [e5]; exact r4
  have t5 : s5.tasks[k]? = some ⟨u, .copied ⟨200⟩ [] none⟩ := by
    rw [e5]
    exact getElem?_set_self_of t4
  have c5 : s5.counts = s4.counts := by rw [e5]; rfl
  have m5 : s5.emitted = s4.emitted := by rw [e5]; rfl
  have p5 : s5.mainPc = .loop (k + 1) := by rw [e5]; exact p4
  have q5 : s5.quiet = true := i5.quiet_eq
  -- step 6: the report is logged
  have e6 := next_advance_copied r5 t5 rfl
  rw [q5] at e6
  have i6 := inv_next i5 (.advance k)
  generalize d6 : next s5 (.advance k) = s6 at e6 i6
  have r6 : s6.status = .running := by
    rw [e6]
    show (s5.write _ _).status = _
    rw [write_status]; exact r5
  have t6 : s6.tasks[k]? = some ⟨u, .reported ⟨200⟩ []⟩ := by
    rw [e6]
    show ((s5.write _ _).tasks.set k _)[k]? = _
    rw [write_tasks]
    exact getElem?_set_self_of t5
  have c6 : s6.counts = s5.counts.set (.info, ⟨"request body bytes", []⟩)
      (s5.counts.get (.info, ⟨"request body bytes", []⟩) + 1) := by
    rw [e6]
    show (s5.write _ _).counts = _
    rw [write_counts (hsamp i5)]
    rfl
  have g5 : s5.counts.get (.info, ⟨"request body bytes", []⟩) = k := by
    rw [c5, c4, get_set_ne _ _ (by decide), c3, c2, c1, get_set_ne _ _ (by decide), cB]
  have m6 : k = 100 → s6.emitted = s5.emitted := by
    intro hk
    rw [e6]
    show (s5.write _ _).emitted = _
    exact write_dropped (hsamp i5) _ _ (by
      show (Sampling.mk 100 100).drops
        (s5.counts.get (.info, ⟨"request body bytes", []⟩) + 1) = true
      rw [g5]; exact hdrop k hk)
  have p6 : s6.mainPc = .loop (k + 1) := by
    rw [e6]
    show (s5.write _ _).mainPc = _
    rw [write_mainPc]; exact p5
  -- step 7: `wg.Done()`
  have e7 := next_advance_reported r6 t6 rfl
  have i7 := inv_next i6 (.advance k)
  generalize d7 : next s6 (.advance k) = s7 at e7 i7
  have r7 : s7.status = .running := by
    have hnp := i7.no_panic
    rw [e7] at hnp ⊢
    show (if s6.wg - 1 < 0 then Status.panicked else s6.status) = _
    have hnp1 : (if s6.wg - 1 < 0 then Status.panicked else s6.status) ≠ .panicked := hnp
    split
    · rename_i hneg
      rw [if_pos hneg] at hnp1
      exact absurd rfl hnp1
    · exact r6
  have t7 : s7.tasks[k]? = some ⟨u, .done ⟨200⟩ []⟩ := by
    rw [e7]
    exact getElem?_set_self_of t6
  have c7 : s7.counts = s6.counts := by rw [e7]; rfl
  have m7 : s7.emitted = s6.emitted := by rw [e7]; rfl
  have p7 : s7.mainPc = .loop (k + 1) := by rw [e7]; exact p6
  have e : run s (round k) = s7 := by
    simp only [round, run, List.foldl_cons, List.foldl_nil]
    rw [d1, d2, d3, d4, d5, d6, d7]
  rw [e]
  refine ⟨⟨i7, r7, p7, ?_, ?_, ?_⟩, t7, ?_⟩
  · rw [c7, c6, get_set_ne _ _ (by decide), c5, c4, get_set_ne _ _ (by decide), c3, c2, c1,
      get_set_self]
  · rw [c7, c6, get_set_ne _ _ (by decide), c5, c4, get_set_self, g3]
  · rw [c7, c6, get_set_self, g5]
  · intro hk
    rw [m7, m6 hk, m5, m4 hk, m3, m2, m1 hk]

theorem rounds_succ (k : Nat) : rounds (k + 1) = rounds k ++ round k := by
  simp [rounds, List.range_succ, List.flatMap_append]

theorem rounds_inv (urls : List String) (client : TransportConfig) (k : Nat)
    (hk : k ≤ urls.length) :
    RoundInv urls client k (run (fanStart .production urls true client) (rounds k)) := by
  induction k with
  | zero =>
    exact ⟨inv_start _ _ _ _, rfl, rfl, rfl, rfl, rfl⟩
  | succ k ih =>
    have hlt : k < urls.length := by omega
    rw [rounds_succ, run_append]
    exact (round_step (ih (by omega)) (List.getElem?_eq_getElem hlt)).1

theorem emittedOf_sublist {logger : ZapConfig} {urls : List String} {quiet : Bool}
    {client : TransportConfig} {s : State} (h : Inv logger urls quiet client s) (i : Nat) :
    (s.emittedOf i).Sublist (s.entriesOf i) :=
  (h.emitted_sub.filter _).map _

theorem emittedOf_all {logger : ZapConfig} {urls : List String} {quiet : Bool}
    {client : TransportConfig} {s : State} (h : Inv logger urls quiet client s)
    (hs : logger.sampling = none) (i : Nat) : s.emittedOf i = s.entriesOf i := by
  unfold State.emittedOf State.entriesOf
  rw [h.emitted_all (by rw [h.logger_eq]; exact hs)]

/-- When 100 entries of each message were counted, the next round leaves a
goroutine that has made its two logger calls and run `wg.Done()`, and of
which the logger has written nothing. -/
theorem round_dropped {urls : List String} {client : TransportConfig} {s : State}
    {u : String} (h : RoundInv urls client 100 s) (hu : urls[100]? = some u) :
    (run s (round 100)).tasks[100]? = some ⟨u, .done ⟨200⟩ []⟩ ∧
    (run s (round 100)).entriesOf 100 = [receivedEntry u ⟨200⟩, report true []] ∧
    (run s (round 100)).emittedOf 100 = [] := by
  have hstep := round_step h hu
  have hlen : s.tasks.length = 100 := by
    have := h.inv.pc_tasks
    rw [h.pc] at this
    exact this.1
  have hnone : s.emittedOf 100 = [] := by
    have hsub := emittedOf_sublist h.inv 100
    have hent := h.inv.log_task 100
    rw [List.getElem?_eq_none (by omega)] at hent
    rw [hent] at hsub
    exact List.sublist_nil.mp hsub
  refine ⟨hstep.2.1, entries_of_success hstep.1.inv hstep.2.1 (Or.inr rfl), ?_⟩
  unfold State.emittedOf at hnone ⊢
  rw [hstep.2.2 rfl]
  exact hnone

/-! ## Lemmas on startup -/

theorem foldl_addCert (certs : List Certificate) (pool : CertPool) :
    ∃ extra : List Certificate, certs.foldl CertPool.AddCert pool = pool ++ extra ∧
      extra.Nodup ∧ ∀ c, c ∈ extra ↔ (c ∈ certs ∧ c ∉ pool) := by
  induction certs generalizing pool with
  | nil => exact ⟨[], by simp, by simp, by simp⟩
  | cons c cs ih =>
    by_cases hc : c ∈ pool
    · obtain ⟨extra, h1, h2, h3⟩ := ih pool
      refine ⟨extra, ?_, h2, ?_⟩
      · simp only [List.foldl_cons, CertPool.AddCert, if_pos hc]
        exact h1
      · intro x
        rw [h3 x]
        constructor
        · rintro ⟨hx, hp⟩
          exact ⟨List.mem_cons_of_mem _ hx, hp⟩
        · rintro ⟨hx, hp⟩
          rcases List.mem_cons.mp hx with rfl | hx
          · exact absurd hc hp
          · exact ⟨hx, hp⟩
    · obtain ⟨extra, h1, h2, h3⟩ := ih (pool ++ [c])
      refine ⟨c :: extra, ?_, ?_, ?_⟩
      · simp only [List.foldl_cons, CertPool.AddCert, if_neg hc]
        rw [h1]
        simp
      · rw [List.nodup_cons]
        refine ⟨?_, h2⟩
        intro hmem
        have := ((h3 c).mp hmem).2
        simp at this
      · intro x
        rw [List.mem_cons, h3 x]
        constructor
        · rintro (rfl | ⟨hx, hp⟩)
          · exact ⟨List.mem_cons_self _ _, hc⟩
          · refine ⟨List.mem_cons_of_mem _ hx, ?_⟩
            intro hxp
            exact hp (List.mem_append_left _ hxp)
        · rintro ⟨hx, hp⟩
          by_cases hxc : x = c
          · left; exact hxc
          · right
            rcases List.mem_cons.mp hx with rfl | hx
            · exact absurd rfl hxc
            · refine ⟨hx, ?_⟩
              intro hmem
              rcases List.mem_append.mp hmem with h | h
              · exact hp h
              · exact hxc (List.mem_singleton.mp h)

theorem addRootCA_ok {w : World} {pool result : CertPool}
    (h : (AddRootCA w pool).outcome = .ok result) :
    ∃ raw, w.readFile (caCertPath w) = .ok raw ∧ w.pemCerts raw ≠ [] ∧
      result = (w.pemCerts raw).foldl CertPool.AddCert pool := by
  unfold AddRootCA at h
  simp only at h
  split at h
  · cases h
  · rename_i raw hraw
    refine ⟨raw, hraw, ?_⟩
    simp only [CertPool.AppendCertsFromPEM] at h
    by_cases hne : w.pemCerts raw = []
    · simp [hne] at h
    · refine ⟨hne, ?_⟩
      simp [hne] at h
      exact h.symm

theorem startup_ok {w : World} {pool : CertPool} (h : startup w = .ok pool) :
    ∃ sys, w.systemCertPool = .ok sys ∧ (AddRootCA w sys).outcome = .ok pool := by
  unfold startup at h
  split at h
  · cases h
  · split at h
    · cases h
    · rename_i sys hsys
      split at h
      · cases h
      · rename_i pool1 hp
        cases h
        exact ⟨sys, hsys, hp⟩

/-- With fuel at least the length of the rest of the path, the loop of
`path.Clean` returns. -/
theorem cleanLoop_total (rooted : Bool) (fuel : Nat) :
    ∀ (p rout : List Char) (dotdot : Nat), p.length ≤ fuel →
      ∃ out, cleanLoop rooted fuel p rout dotdot = some out := by
  induction fuel with
  | zero =>
    intro p rout dotdot h
    cases p with
    | nil => exact ⟨rout, by simp [cleanLoop]⟩
    | cons c t => simp at h
  | succ fuel ih =>
    intro p rout dotdot h
    cases p with
    | nil => exact ⟨rout, by simp [cleanLoop]⟩
    | cons c t =>
      have ht : t.length ≤ fuel := by simpa using h
      have htt : t.tail.length ≤ fuel := by
        have := List.length_tail t
        omega
      unfold cleanLoop
      by_cases hc : c = '/'
      · rw [if_pos hc]
        exact ih _ _ _ ht
      · rw [if_neg hc]
        have hd : ((c :: t).dropWhile (fun x => decide (x ≠ '/'))).length ≤ fuel := by
          have : (c :: t).dropWhile (fun x => decide (x ≠ '/')) =
              t.dropWhile (fun x => decide (x ≠ '/')) := by
            simp [List.dropWhile_cons, hc]
          rw [this]
          exact le_trans (List.dropWhile_sublist _).length_le ht
        split_ifs <;> first | exact ih _ _ _ ht | exact ih _ _ _ htt | exact ih _ _ _ hd

/-- The loop of `path.Clean` never runs out of the fuel `cleanChars` gives it. -/
theorem cleanChars_fuel (c : Char) (t : List Char) :
    ∃ out, cleanLoop (decide (c = '/')) (c :: t).length
      (if decide (c = '/') = true then (c :: t).tail else c :: t)
      (if decide (c = '/') = true then ['/'] else [])
      (if decide (c = '/') = true then ['/'] else ([] : List Char)).length = some out := by
  apply cleanLoop_total
  split <;> simp

theorem joinChars_split (d a b : List Char) (ha : a ≠ []) :
    joinChars [d, a, b] = joinChars [d, a ++ '/' :: b] := by
  have hsum1 : ¬ (([d, a, b].map List.length).sum = 0) := by
    have : 0 < a.length := List.length_pos.mpr ha
    simp [ha]
  have hsum2 : ¬ (([d, a ++ '/' :: b].map List.length).sum = 0) := by
    simp
  unfold joinChars
  rw [if_neg hsum1, if_neg hsum2]
  congr 1
  by_cases hd : d = []
  · subst hd
    simp [joinBuf, ha]
  · simp [joinBuf, hd]

theorem join_split (d : String) :
    Join [d, "security", "ca.pem"] = Join [d, "security/ca.pem"] := by
  unfold Join
  congr 1
  exact joinChars_split d.data "security".data "ca.pem".data (by decide)

/-! ## The claims -/

/-- C1, as stated, fails: with two URLs, the first goroutine can reach
`logger.Fatalw` before the loop launches the second; the process has then
exited with one goroutine launched and one `hclient.Get` made. -/
theorem fanout_all_launched_counterexample :
    (run (fanStart .production ["u1", "u2"] false ⟨[], false⟩)
        earlyFatalSchedule).status = .exitedFatal ∧
    (∀ acts, run (run (fanStart .production ["u1", "u2"] false ⟨[], false⟩)
        earlyFatalSchedule) acts =
      run (fanStart .production ["u1", "u2"] false ⟨[], false⟩) earlyFatalSchedule) ∧
    (run (fanStart .production ["u1", "u2"] false ⟨[], false⟩)
        earlyFatalSchedule).tasks.length = 1 ∧
    ¬ ((run (fanStart .production ["u1", "u2"] false ⟨[], false⟩) earlyFatalSchedule).tasks.length =
        ["u1", "u2"].length) ∧
    ¬ ((((run (fanStart .production ["u1", "u2"] false ⟨[], false⟩) earlyFatalSchedule).gets.map
        GetCall.url : List String) : Multiset String) = ((["u1", "u2"] : List String) : Multiset String)) := by
  refine ⟨by decide, ?_, by decide, by decide, ?_⟩
  · intro acts
    exact run_of_not_running (by decide) acts
  · intro h
    have := congrArg Multiset.card h
    revert this
    decide

/-- C1, amended: the counter starts at `len(urls)`; in every reachable state
the goroutines launched so far are one per list position, for an initial
segment of `urls`, in order and without deduplication; inside the loop `main`
is never blocked while the process runs, and once `main` has left the loop all
`len(urls)` goroutines are launched; every `hclient.Get` was made by a
goroutine of its own with the URL of that goroutine's list position, so the
URLs passed to `hclient.Get` form a sub-multiset of `urls`, and the whole
multiset once the process has exited normally. -/
theorem fanout_launches_per_position (logger : ZapConfig) (urls : List String)
    (quiet : Bool) (client : TransportConfig) (s : State) (h : Reachable logger urls quiet client s) :
    (fanStart logger urls quiet client).wg = (urls.length : Int) ∧
    s.tasks.map Task.url = urls.take s.tasks.length ∧
    (s.status = .running → s.mainPc.leftLoop = false → ∃ s1, step s .main = some s1) ∧
    (s.mainPc.leftLoop = true → s.tasks.map Task.url = urls) ∧
    (∀ g ∈ s.gets, urls[g.task]? = some g.url) ∧
    (s.gets.map GetCall.task).Nodup ∧
    ((s.gets.map GetCall.url : List String) : Multiset String) ≤ (urls : Multiset String) ∧
    (s.status = .exitedNormally →
      ((s.gets.map GetCall.url : List String) : Multiset String) = (urls : Multiset String)) := by
  obtain ⟨acts, rfl⟩ := h
  have hinv := inv_run logger urls quiet client acts
  generalize run (fanStart logger urls quiet client) acts = s at hinv
  have hsub : ((s.tasks.filter (fun t => t.pc.called)).map Task.url).Sublist urls := by
    have h1 : ((s.tasks.filter (fun t => t.pc.called)).map Task.url).Sublist
        (s.tasks.map Task.url) := (List.filter_sublist _).map _
    rw [hinv.tasks_urls] at h1
    exact h1.trans (List.take_sublist _ _)
  refine ⟨rfl, hinv.tasks_urls, loop_step_enabled s, ?_, fun g hg => (hinv.gets_cfg g hg).2,
    hinv.gets_nodup, ?_, ?_⟩
  · intro hleft
    have hlen : s.tasks.length = urls.length := by
      have := hinv.pc_tasks
      cases hpc : s.mainPc <;> simp_all [MainPc.leftLoop]
    rw [hinv.tasks_urls, hlen, List.take_length]
  · rw [Multiset.coe_le]
    exact hinv.gets_perm.subperm.trans hsub.subperm
  · intro hst
    have hret := hinv.normal_iff.mp hst
    have hp : s.mainPc.passedWait = true := by simp [hret, MainPc.passedWait]
    have hlen : s.tasks.length = urls.length := by
      have := hinv.pc_tasks
      simp_all
    have hc := hinv.passed hp
    rw [← hlen] at hc
    have hall := List.countP_eq_length.mp hc
    have hfilter : s.tasks.filter (fun t => t.pc.called) = s.tasks := by
      rw [List.filter_eq_self]
      intro t ht
      have hd := hall t ht
      cases hpc : t.pc <;> simp_all [TaskPc.isDone, TaskPc.called]
    rw [Multiset.coe_eq_coe]
    have := hinv.gets_perm
    rw [hfilter, hinv.tasks_urls, hlen, List.take_length] at this
    exact this

theorem fanout_launches_per_position_witness :
    (run (fanStart .production ["u", "u"] false ⟨[], false⟩)
      [.main, .main, .main, .main, .get 1 (.ok ⟨200⟩), .get 0 (.ok ⟨200⟩)]).gets.map GetCall.task
        = [1, 0] ∧
    (((run (fanStart .production ["u", "u"] false ⟨[], false⟩)
      [.main, .main, .main, .main, .get 1 (.ok ⟨200⟩), .get 0 (.ok ⟨200⟩)]).gets.map
        GetCall.url : List String) : Multiset String) ≤ ((["u", "u"] : List String) : Multiset String) :=
  ⟨by decide,
   (fanout_launches_per_position .production ["u", "u"] false ⟨[], false⟩ _
      ⟨[.main, .main, .main, .main, .get 1 (.ok ⟨200⟩), .get 0 (.ok ⟨200⟩)], rfl⟩).2.2.2.2.2.2.1⟩

/-- C2: in every state some interleaving of `main` and the fetch goroutines
leads to, `main` is past `wg.Wait()` only if all `len(urls)` goroutines were
launched and ran their final `wg.Done()` without a fatal branch; `wg.Wait()`
lets `main` through only in such a state; the process has exited normally only
in such a state; the counter is `len(urls)` minus the number of goroutines
that completed, and it is never negative. -/
theorem wait_passes_only_when_all_done (logger : ZapConfig) (urls : List String)
    (quiet : Bool) (client : TransportConfig) (s : State) (h : Reachable logger urls quiet client s) :
    (s.mainPc.passedWait = true → s.allDone) ∧
    (∀ s1, s.mainPc = .wait → step s .main = some s1 → s.allDone ∧ s1.mainPc.passedWait = true) ∧
    (s.status = .exitedNormally → s.allDone) ∧
    s.wg = (urls.length : Int) - (s.completed : Int) ∧
    0 ≤ s.wg := by
  obtain ⟨acts, rfl⟩ := h
  have hinv := inv_run logger urls quiet client acts
  generalize run (fanStart logger urls quiet client) acts = s at hinv
  refine ⟨allDone_of_passed hinv, ?_, ?_, hinv.wg_eq, ?_⟩
  · intro s1 hpc hs
    unfold step at hs
    split at hs
    · cases hs
    · simp only [mainStep, hpc] at hs
      split at hs
      · rename_i hwg
        simp only [Option.some.injEq] at hs
        subst hs
        have hlen : s.tasks.length = urls.length := by
          have := hinv.pc_tasks
          simp_all
        have hc : s.tasks.countP (fun t => t.pc.isDone) = urls.length := by
          have := hinv.wg_eq
          omega
        exact ⟨allDone_of_count hinv hlen hc, by simp [MainPc.passedWait]⟩
      · cases hs
  · intro hst
    have hret := hinv.normal_iff.mp hst
    exact allDone_of_passed hinv (by simp [hret, MainPc.passedWait])
  · have h1 := hinv.wg_eq
    have h2 := List.countP_le_length (fun t : Task => t.pc.isDone) (l := s.tasks)
    have h3 := hinv.tasks_le
    omega

theorem wait_passes_only_when_all_done_witness :
    (run (fanStart .production ["https://a.example"] true ⟨[], false⟩)
        okSchedule).status = .exitedNormally ∧
    (run (fanStart .production ["https://a.example"] true ⟨[], false⟩) okSchedule).allDone ∧
    (run (fanStart .production ["https://a.example"] true ⟨[], false⟩) okSchedule).wg = 0 :=
  ⟨by decide,
   (wait_passes_only_when_all_done .production ["https://a.example"] true ⟨[], false⟩ _
      ⟨okSchedule, rfl⟩).2.2.1 (by decide),
   by decide⟩

/-- C3 at a body-read failure: for the URL `https://a.example`, when
`io.Copy` returns an error the goroutine's fatal entry, which the logger
writes, is `Fatalw("unable to response body", "error", err)`; it carries the
error and not the URL, the process exits, and the goroutine has not run `wg.Done()`.
The entry of a failed `hclient.Get` for the same URL carries both. -/
theorem copy_fatal_entry_lacks_url :
    (run (fanStart .production ["https://a.example"] false ⟨[], false⟩)
        copyFailSchedule).log.getLast? =
      some (Goroutine.task 0,
        ⟨.Fatalw, "unable to response body", [.str "error", .err ⟨"stream reset"⟩]⟩) ∧
    (run (fanStart .production ["https://a.example"] false ⟨[], false⟩)
        copyFailSchedule).emitted.getLast? =
      some (Goroutine.task 0,
        ⟨.Fatalw, "unable to response body", [.str "error", .err ⟨"stream reset"⟩]⟩) ∧
    (copyFatalEntry ⟨"stream reset"⟩).carriesErr ⟨"stream reset"⟩ = true ∧
    (copyFatalEntry ⟨"stream reset"⟩).carriesUrl "https://a.example" = false ∧
    (run (fanStart .production ["https://a.example"] false ⟨[], false⟩) copyFailSchedule).status =
      .exitedFatal ∧
    (run (fanStart .production ["https://a.example"] false ⟨[], false⟩) copyFailSchedule).tasks =
      [⟨"https://a.example", .fatalCopy ⟨200⟩ [104] ⟨"stream reset"⟩⟩] ∧
    (run (fanStart .production ["https://a.example"] false ⟨[], false⟩) copyFailSchedule).wg = 1 ∧
    (run (fanStart .production ["https://a.example"] false ⟨[], false⟩)
        getFailSchedule).log.getLast? =
      some (Goroutine.task 0, ⟨.Fatalw, "unable to get the url",
        [.str "url", .str "https://a.example", .str "error", .err ⟨"dial failed"⟩]⟩) ∧
    (getFatalEntry "https://a.example" ⟨"dial failed"⟩).carriesUrl "https://a.example" = true := by
  decide

/-- C4 at a fatal exit: for the URL `https://a.example`, when `hclient.Get`
fails the goroutine's `logger.Fatalw` ends the process; the transport was
built and the deferred `roundTripper.Close()` of line 48 has not run, and
nothing runs after the exit.  In the run in which the fetch succeeds and
`main` returns, it has run once. -/
theorem close_on_fatal_counterexample :
    (run (fanStart .production ["https://a.example"] false ⟨[], false⟩)
      getFailSchedule).status = .exitedFatal ∧
    (∀ acts,
      run (run (fanStart .production ["https://a.example"] false ⟨[], false⟩)
        getFailSchedule) acts =
      run (fanStart .production ["https://a.example"] false ⟨[], false⟩) getFailSchedule) ∧
    (run (fanStart .production ["https://a.example"] false ⟨[], false⟩)
      getFailSchedule).closes = 0 ∧
    ¬ ((run (fanStart .production ["https://a.example"] false ⟨[], false⟩)
      getFailSchedule).closes = 1) ∧
    (run (fanStart .production ["https://a.example"] false ⟨[], false⟩)
      okSchedule).status = .exitedNormally ∧
    (run (fanStart .production ["https://a.example"] false ⟨[], false⟩)
      okSchedule).closes = 1 := by
  refine ⟨by decide, ?_, by decide, by decide, by decide, by decide⟩
  intro acts
  exact run_of_not_running (by decide) acts

/-- C5: when the system pool cannot be read, or `security/ca.pem` cannot be
read, or no certificate can be decoded from it, startup ends the process
before the transport is built: under every schedule no goroutine is launched,
no `hclient.Get` is made and no transport exists.  In every run, a transport
that exists holds, among its root CAs, every certificate decoded from the
file, of which there is at least one. -/
theorem startup_failure_aborts (w : World) (acts : List Action) :
    (((∃ e, w.systemCertPool = .error e) ∨ (∃ e, w.readFile (caCertPath w) = .error e) ∨
        (∃ raw, w.readFile (caCertPath w) = .ok raw ∧ w.pemCerts raw = [])) →
      (∃ a, startup w = .error a ∧ (processStart w).run acts = .aborted a) ∧
      ((processStart w).run acts).status ≠ .running ∧
      ((processStart w).run acts).status ≠ .exitedNormally ∧
      ((processStart w).run acts).launched = 0 ∧
      ((processStart w).run acts).gets = [] ∧
      ((processStart w).run acts).transport = none) ∧
    (∀ cfg, ((processStart w).run acts).transport = some cfg →
      ∃ raw, w.readFile (caCertPath w) = .ok raw ∧ w.pemCerts raw ≠ [] ∧
        ∀ c ∈ w.pemCerts raw, c ∈ cfg.rootCAs) := by
  constructor
  · intro h
    have hab : ∃ a, startup w = .error a := by
      cases hst : startup w with
      | error a => exact ⟨a, rfl⟩
      | ok pool =>
        exfalso
        obtain ⟨sys, hsys, hadd⟩ := startup_ok hst
        obtain ⟨raw, hraw, hne, _⟩ := addRootCA_ok hadd
        rcases h with ⟨e, he⟩ | ⟨e, he⟩ | ⟨raw1, hraw1, hnil⟩
        · rw [hsys] at he; cases he
        · rw [hraw] at he; cases he
        · rw [hraw] at hraw1; cases hraw1; exact hne hnil
    obtain ⟨a, ha⟩ := hab
    have hp : (processStart w).run acts = .aborted a := by
      simp [processStart, ha, Process.run]
    rw [hp]
    refine ⟨⟨a, ha, rfl⟩, ?_, ?_, rfl, rfl, rfl⟩
    · cases a <;> simp [Process.status]
    · cases a <;> simp [Process.status]
  · intro cfg hcfg
    cases hst : startup w with
    | error a => simp [processStart, hst, Process.run, Process.transport] at hcfg
    | ok pool =>
      obtain ⟨sys, hsys, hadd⟩ := startup_ok hst
      obtain ⟨raw, hraw, hne, hres⟩ := addRootCA_ok hadd
      obtain ⟨extra, h1, _, h3⟩ := foldl_addCert (w.pemCerts raw) sys
      have hall : ∀ c ∈ w.pemCerts raw, c ∈ pool := by
        intro c hc
        rw [hres, h1]
        by_cases hp : c ∈ sys
        · exact List.mem_append_left _ hp
        · exact List.mem_append_right _ ((h3 c).mpr ⟨hc, hp⟩)
      have hinv := inv_run (loggerConfig w.verbose) w.urls w.quiet (newClient w pool) acts
      simp only [processStart, hst, Process.run, Process.transport, Option.some.injEq] at hcfg
      rw [hinv.client_eq] at hcfg
      subst hcfg
      exact ⟨raw, hraw, hne, hall⟩

theorem startup_failure_aborts_witness :
    (∃ a, startup missingCertWorld = .error a ∧
      (processStart missingCertWorld).run [.main, .get 0 (.ok ⟨200⟩)] = .aborted a) ∧
    ((processStart missingCertWorld).run [.main, .get 0 (.ok ⟨200⟩)]).status ≠ .running ∧
    ((processStart missingCertWorld).run [.main, .get 0 (.ok ⟨200⟩)]).status ≠ .exitedNormally ∧
    ((processStart missingCertWorld).run [.main, .get 0 (.ok ⟨200⟩)]).launched = 0 ∧
    ((processStart missingCertWorld).run [.main, .get 0 (.ok ⟨200⟩)]).gets = [] ∧
    ((processStart missingCertWorld).run [.main, .get 0 (.ok ⟨200⟩)]).transport = none :=
  (startup_failure_aborts missingCertWorld [.main, .get 0 (.ok ⟨200⟩)]).1
    (Or.inr (Or.inl ⟨⟨"no such file"⟩, rfl⟩))

/-- C6, as stated, fails: when `security/ca.pem` holds two certificates,
`AddRootCA` returns normally and the pool has two entries more than the
default anchors. -/
theorem one_custom_entry_counterexample :
    (AddRootCA twoCertWorld [⟨[1]⟩]).outcome = .ok [⟨[1]⟩, ⟨[2]⟩, ⟨[3]⟩] ∧
    ¬ (∃ c : Certificate, ([⟨[1]⟩, ⟨[2]⟩, ⟨[3]⟩] : CertPool) = [⟨[1]⟩] ++ [c]) := by
  refine ⟨rfl, ?_⟩
  rintro ⟨c, hc⟩
  simp at hc

/-- C6, amended: whenever `AddRootCA` returns normally, the file was read, at
least one certificate was decoded from it, and the resulting pool is the given
pool followed by the decoded certificates that were not yet in it, each once:
every default anchor and every decoded certificate is in the pool and nothing
else is.  The number of entries gained is the number of distinct decoded
certificates that the pool did not hold; it is exactly one when the file
holds exactly one certificate that the pool did not hold. -/
theorem pool_gains_decoded_certs (w : World) (pool result : CertPool)
    (h : (AddRootCA w pool).outcome = .ok result) :
    ∃ raw extra, w.readFile (caCertPath w) = .ok raw ∧ w.pemCerts raw ≠ [] ∧
      result = pool ++ extra ∧ extra.Nodup ∧
      (∀ c, c ∈ extra ↔ (c ∈ w.pemCerts raw ∧ c ∉ pool)) ∧
      (∀ c ∈ w.pemCerts raw, c ∈ result) ∧
      extra.length = ((w.pemCerts raw).dedup.filter (fun c => decide (c ∉ pool))).length ∧
      (∀ c, w.pemCerts raw = [c] → c ∉ pool → result = pool ++ [c]) := by
  obtain ⟨raw, hraw, hne, hres⟩ := addRootCA_ok h
  obtain ⟨extra, h1, h2, h3⟩ := foldl_addCert (w.pemCerts raw) pool
  refine ⟨raw, extra, hraw, hne, hres.trans h1, h2, h3, ?_, ?_, ?_⟩
  · intro c hc
    rw [hres, h1]
    by_cases hp : c ∈ pool
    · exact List.mem_append_left _ hp
    · exact List.mem_append_right _ ((h3 c).mpr ⟨hc, hp⟩)
  · refine List.Perm.length_eq ((List.perm_ext_iff_of_nodup h2
      ((List.nodup_dedup _).filter _)).mpr ?_)
    intro c
    rw [h3 c]
    simp
  · intro c hc hp
    rw [hres, hc]
    simp [CertPool.AddCert, hp]

theorem pool_gains_decoded_certs_witness :
    ∃ raw extra, twoCertWorld.readFile (caCertPath twoCertWorld) = .ok raw ∧
      twoCertWorld.pemCerts raw ≠ [] ∧
      ([⟨[1]⟩, ⟨[2]⟩, ⟨[3]⟩] : CertPool) = [⟨[1]⟩] ++ extra ∧ extra.Nodup ∧
      (∀ c, c ∈ extra ↔ (c ∈ twoCertWorld.pemCerts raw ∧ c ∉ ([⟨[1]⟩] : CertPool))) ∧
      (∀ c ∈ twoCertWorld.pemCerts raw, c ∈ ([⟨[1]⟩, ⟨[2]⟩, ⟨[3]⟩] : CertPool)) ∧
      extra.length = ((twoCertWorld.pemCerts raw).dedup.filter
        (fun c => decide (c ∉ ([⟨[1]⟩] : CertPool)))).length ∧
      (∀ c, twoCertWorld.pemCerts raw = [c] → c ∉ ([⟨[1]⟩] : CertPool) →
        ([⟨[1]⟩, ⟨[2]⟩, ⟨[3]⟩] : CertPool) = [⟨[1]⟩] ++ [c]) :=
  pool_gains_decoded_certs twoCertWorld [⟨[1]⟩] [⟨[1]⟩, ⟨[2]⟩, ⟨[3]⟩] rfl

/-- C7, as stated, fails: without `-v` and with `-q`, when 101 fetches succeed
within one second of the sampler, the goroutine of the last one has made its
two logger calls and run `wg.Done()`, and the logger has written no entry for
it: the report of that successful fetch is not emitted. -/
theorem report_sampled_counterexample :
    (run (fanStart (loggerConfig false) (List.replicate 101 "https://a.example") true
      ⟨[], false⟩) (rounds 101)).tasks[100]? =
        some ⟨"https://a.example", .done ⟨200⟩ []⟩ ∧
    (run (fanStart (loggerConfig false) (List.replicate 101 "https://a.example") true
      ⟨[], false⟩) (rounds 101)).entriesOf 100 =
        [receivedEntry "https://a.example" ⟨200⟩, report true []] ∧
    (run (fanStart (loggerConfig false) (List.replicate 101 "https://a.example") true
      ⟨[], false⟩) (rounds 101)).emittedOf 100 = [] ∧
    ¬ (((run (fanStart (loggerConfig false) (List.replicate 101 "https://a.example") true
      ⟨[], false⟩) (rounds 101)).emittedOf 100).filter Entry.isReport).length = 1 := by
  have h100 := rounds_inv (List.replicate 101 "https://a.example") ⟨[], false⟩ 100
    (by simp)
  have hlast := round_dropped h100 (u := "https://a.example") (by simp)
  have hrun : run (fanStart (loggerConfig false) (List.replicate 101 "https://a.example") true
      ⟨[], false⟩) (rounds 101) =
      run (run (fanStart .production (List.replicate 101 "https://a.example") true
        ⟨[], false⟩) (rounds 100)) (round 100) := by
    rw [rounds_succ, run_append]
    rfl
  rw [hrun]
  refine ⟨hlast.1, hlast.2.1, hlast.2.2, ?_⟩
  rw [hlast.2.2]
  decide

/-- C7, amended: in every reachable state, a goroutine whose fetch succeeded
with body `b` (it stands at or after `wg.Done()`) has made exactly two logger
calls, the receipt and then one report.  With `-q` the report, its final call,
is `Infow("request body bytes", "length", len(b))` and carries no byte string;
without `-q` it is `Infof("request body", "body", b)` and carries `b`.  Exactly
one call of the goroutine has one of the two forms, and every successful
goroutine of the run used the same form.  The entries the logger has written
for the goroutine are among these calls, in order, so at most one report is
written; with `-v` every call is written, so the report is the final entry
and exactly one report is written. -/
theorem report_follows_quiet_flag (logger : ZapConfig) (urls : List String)
    (quiet : Bool) (client : TransportConfig) (s : State)
    (h : Reachable logger urls quiet client s)
    (i : Nat) (t : Task) (response : Response) (b : Bytes)
    (hi : s.tasks[i]? = some t)
    (hpc : t.pc = .reported response b ∨ t.pc = .done response b) :
    s.entriesOf i = [receivedEntry t.url response, report quiet b] ∧
    (s.entriesOf i).getLast? = some (report quiet b) ∧
    (quiet = true →
      report quiet b = ⟨.Infow, "request body bytes", [.str "length", .int (b.length : Int)]⟩ ∧
      (report quiet b).carriesBytes = false) ∧
    (quiet = false →
      report quiet b = ⟨.Infof, "request body", [.str "body", .bytes b]⟩ ∧
      Value.bytes b ∈ (report quiet b).args) ∧
    ((s.entriesOf i).filter Entry.isReport).length = 1 ∧
    (∀ j tj rj bj, s.tasks[j]? = some tj →
      (tj.pc = .reported rj bj ∨ tj.pc = .done rj bj) →
      ((s.entriesOf j).getLast?).map Entry.call = ((s.entriesOf i).getLast?).map Entry.call ∧
      ((s.entriesOf j).getLast?).map Entry.msg = ((s.entriesOf i).getLast?).map Entry.msg) ∧
    (s.emittedOf i).Sublist (s.entriesOf i) ∧
    ((s.emittedOf i).filter Entry.isReport).length ≤ 1 ∧
    (logger = loggerConfig true →
      s.emittedOf i = [receivedEntry t.url response, report quiet b] ∧
      (s.emittedOf i).getLast? = some (report quiet b) ∧
      ((s.emittedOf i).filter Entry.isReport).length = 1) := by
  obtain ⟨acts, rfl⟩ := h
  have hinv := inv_run logger urls quiet client acts
  generalize run (fanStart logger urls quiet client) acts = s at hinv hi
  have he := entries_of_success hinv hi hpc
  have hone : ((s.entriesOf i).filter Entry.isReport).length = 1 := by
    rw [he]
    cases quiet <;> rfl
  have hsub := emittedOf_sublist hinv i
  refine ⟨he, by rw [he]; rfl, ?_, ?_, hone, ?_, hsub, ?_, ?_⟩
  · intro hq
    subst hq
    exact ⟨rfl, rfl⟩
  · intro hq
    subst hq
    exact ⟨rfl, by simp [report]⟩
  · intro j tj rj bj hj hpcj
    rw [he, entries_of_success hinv hj hpcj]
    cases quiet <;> exact ⟨rfl, rfl⟩
  · rw [← hone]
    exact (hsub.filter _).length_le
  · intro hl
    have hall := emittedOf_all hinv (by rw [hl]; rfl) i
    rw [hall]
    exact ⟨he, by rw [he]; rfl, hone⟩

theorem report_follows_quiet_flag_witness :
    (run (fanStart (loggerConfig true) ["https://a.example"] true ⟨[], false⟩)
      okSchedule).emittedOf 0 =
      [receivedEntry "https://a.example" ⟨200⟩, report true [104, 105]] ∧
    (run (fanStart .production ["https://a.example"] true ⟨[], false⟩) okSchedule).entriesOf 0 =
      [receivedEntry "https://a.example" ⟨200⟩, report true [104, 105]] ∧
    report true [104, 105] = ⟨.Infow, "request body bytes", [.str "length", .int 2]⟩ :=
  ⟨((report_follows_quiet_flag (loggerConfig true) ["https://a.example"] true ⟨[], false⟩ _
      ⟨okSchedule, rfl⟩ 0 ⟨"https://a.example", .done ⟨200⟩ [104, 105]⟩ ⟨200⟩ [104, 105]
      (by decide) (Or.inr rfl)).2.2.2.2.2.2.2.2 rfl).1,
   (report_follows_quiet_flag .production ["https://a.example"] true ⟨[], false⟩ _
      ⟨okSchedule, rfl⟩ 0 ⟨"https://a.example", .done ⟨200⟩ [104, 105]⟩ ⟨200⟩ [104, 105]
      (by decide) (Or.inr rfl)).1,
   by decide⟩

/-- C8: every `hclient.Get` of a run is made on the one client built at
startup, whose transport skips verification exactly when `-insecure` is set
and whose root CAs are the pool `startup` built. -/
theorem every_get_uses_startup_config (w : World) (acts : List Action) (g : GetCall)
    (hg : g ∈ ((processStart w).run acts).gets) :
    g.config.insecureSkipVerify = w.insecure ∧
    startup w = .ok g.config.rootCAs ∧
    ((processStart w).run acts).transport = some g.config ∧
    (∀ g1 ∈ ((processStart w).run acts).gets, g1.config = g.config) := by
  cases hst : startup w with
  | error a => simp [processStart, hst, Process.run, Process.gets] at hg
  | ok pool =>
    have hinv := inv_run (loggerConfig w.verbose) w.urls w.quiet (newClient w pool) acts
    simp only [processStart, hst, Process.run, Process.gets, Process.transport] at hg ⊢
    have hc := (hinv.gets_cfg g hg).1
    rw [hc, hinv.client_eq]
    refine ⟨rfl, rfl, rfl, ?_⟩
    intro g1 hg1
    exact (hinv.gets_cfg g1 hg1).1

theorem every_get_uses_startup_config_witness :
    (GetCall.mk 0 "https://a.example" ⟨[⟨[1]⟩, ⟨[2]⟩], true⟩ ∈
      ((processStart insecureWorld).run [.main, .main, .get 0 (.ok ⟨200⟩)]).gets) ∧
    (GetCall.mk 0 "https://a.example" ⟨[⟨[1]⟩, ⟨[2]⟩], true⟩).config.insecureSkipVerify =
      insecureWorld.insecure ∧
    startup insecureWorld = .ok [⟨[1]⟩, ⟨[2]⟩] :=
  ⟨by decide,
   (every_get_uses_startup_config insecureWorld [.main, .main, .get 0 (.ok ⟨200⟩)]
      ⟨0, "https://a.example", ⟨[⟨[1]⟩, ⟨[2]⟩], true⟩⟩ (by decide)).1,
   (every_get_uses_startup_config insecureWorld [.main, .main, .get 0 (.ok ⟨200⟩)]
      ⟨0, "https://a.example", ⟨[⟨[1]⟩, ⟨[2]⟩], true⟩⟩ (by decide)).2.1⟩

/-- C9, as stated, fails: run with no URL where `security/ca.pem` cannot be
read, `AddRootCA` panics and the process does not exit normally, whatever the
schedule. -/
theorem no_urls_exit_counterexample :
    missingCertWorld.urls = [] ∧
    processStart missingCertWorld = .aborted (.panic (.error ⟨"no such file"⟩)) ∧
    (∀ acts, ((processStart missingCertWorld).run acts).status = .panicked) ∧
    ¬ (((processStart missingCertWorld).run [.main, .main, .main, .main]).status =
        .exitedNormally) := by
  refine ⟨rfl, rfl, fun acts => rfl, by decide⟩

/-- C9, amended: run with no URL, the process launches no goroutine and makes
no `hclient.Get`, whether or not startup succeeds.  When startup succeeds,
only the main goroutine can move: the counter is 0, `wg.Wait()` lets `main`
through at once, no fatal branch exists, and after the four steps of `main`
(leaving the loop, `wg.Wait()`, the two deferred calls) the process has exited
normally. -/
theorem no_urls_no_network (w : World) (hurls : w.urls = []) (acts : List Action) :
    ((processStart w).run acts).launched = 0 ∧
    ((processStart w).run acts).gets = [] ∧
    (∀ pool, startup w = .ok pool →
      (processStart w).run acts =
        .fanout (emptyAt (loggerConfig w.verbose) w.quiet (newClient w pool) (acts.countP Action.isMain)) ∧
      (emptyAt (loggerConfig w.verbose) w.quiet (newClient w pool) 1).mainPc = .wait ∧
      (emptyAt (loggerConfig w.verbose) w.quiet (newClient w pool) 1).wg = 0 ∧
      step (emptyAt (loggerConfig w.verbose) w.quiet (newClient w pool) 1) .main =
        some (emptyAt (loggerConfig w.verbose) w.quiet (newClient w pool) 2) ∧
      (((processStart w).run acts).status = .running ∨
        ((processStart w).run acts).status = .exitedNormally) ∧
      (4 ≤ acts.countP Action.isMain →
        ((processStart w).run acts).status = .exitedNormally)) := by
  cases hst : startup w with
  | error a =>
    refine ⟨by simp [processStart, hst, Process.run, Process.launched],
      by simp [processStart, hst, Process.run, Process.gets], ?_⟩
    intro pool hp
    cases hp
  | ok pool =>
    have hrun : (processStart w).run acts =
        .fanout (emptyAt (loggerConfig w.verbose) w.quiet (newClient w pool) (acts.countP Action.isMain)) := by
      simp only [processStart, hst, Process.run, hurls]
      have := run_emptyAt (loggerConfig w.verbose) w.quiet (newClient w pool) acts 0
      simp only [Nat.zero_add] at this
      rw [← this]
      rfl
    have ht := emptyAt_tasks (loggerConfig w.verbose) w.quiet (newClient w pool) (acts.countP Action.isMain)
    refine ⟨by rw [hrun]; simp [Process.launched, ht.1], by rw [hrun]; simp [Process.gets, ht.2], ?_⟩
    intro pool1 hp
    cases hp
    refine ⟨hrun, rfl, rfl, rfl, ?_, ?_⟩
    · rw [hrun, emptyAt_min]
      have : min (acts.countP Action.isMain) 4 = 0 ∨ min (acts.countP Action.isMain) 4 = 1 ∨
          min (acts.countP Action.isMain) 4 = 2 ∨ min (acts.countP Action.isMain) 4 = 3 ∨
          min (acts.countP Action.isMain) 4 = 4 := by omega
      rcases this with h | h | h | h | h <;> rw [h]
      · left; rfl
      · left; rfl
      · left; rfl
      · left; rfl
      · right; rfl
    · intro h4
      rw [hrun, emptyAt_min, Nat.min_eq_right h4]
      rfl

theorem no_urls_no_network_witness :
    noCwdWorld.urls = [] ∧ startup noCwdWorld = .ok [⟨[1]⟩, ⟨[2]⟩] ∧
    ((processStart noCwdWorld).run [.main, .main, .main, .main]).status = .exitedNormally ∧
    ((processStart noCwdWorld).run [.main, .main, .main, .main]).gets = [] :=
  ⟨rfl, rfl,
   ((no_urls_no_network noCwdWorld rfl [.main, .main, .main, .main]).2.2
      [⟨[1]⟩, ⟨[2]⟩] rfl).2.2.2.2.2 (by decide),
   (no_urls_no_network noCwdWorld rfl [.main, .main, .main, .main]).2.1⟩

/-- C10: `AddRootCA` does not look at the error of `os.Getwd`: its result is
the same whatever that error is.  The path it reads is
`path.Join(currentDir, "security", "ca.pem")`, which is `currentDir` joined
with `security/ca.pem`, and is the relative path `security/ca.pem` when
`os.Getwd` gave the empty string.  It panics exactly when that read fails or
`AppendCertsFromPEM` reports that nothing was appended. -/
theorem getwd_error_is_discarded (w : World) (pool : CertPool) :
    (∀ e, AddRootCA { w with getwd := (w.getwd.1, e) } pool = AddRootCA w pool) ∧
    (AddRootCA w pool).readPath = Join [w.getwd.1, "security", "ca.pem"] ∧
    (AddRootCA w pool).readPath = Join [w.getwd.1, "security/ca.pem"] ∧
    (w.getwd.1 = "" → (AddRootCA w pool).readPath = "security/ca.pem") ∧
    ((∃ v, (AddRootCA w pool).outcome = .error v) ↔
      ((∃ e, w.readFile (AddRootCA w pool).readPath = .error e) ∨
        (∃ raw, w.readFile (AddRootCA w pool).readPath = .ok raw ∧
          (CertPool.AppendCertsFromPEM w pool raw).2 = false))) := by
  have hpath : (AddRootCA w pool).readPath = Join [w.getwd.1, "security", "ca.pem"] := by
    unfold AddRootCA
    simp only
    split
    · rfl
    · split <;> rfl
  refine ⟨fun e => rfl, hpath, hpath.trans (join_split _), ?_, ?_⟩
  · intro hd
    rw [hpath, hd]
    decide
  · rw [hpath]
    unfold AddRootCA
    simp only
    cases hr : w.readFile (Join [w.getwd.1, "security", "ca.pem"]) with
    | error e => simp
    | ok raw =>
      simp only
      cases hp : CertPool.AppendCertsFromPEM w pool raw with
      | mk p ok =>
        cases ok <;> simp [hp]

theorem getwd_error_is_discarded_witness :
    noCwdWorld.getwd = ("", some ⟨"getwd: no such file or directory"⟩) ∧
    (AddRootCA noCwdWorld [⟨[1]⟩]).readPath = "security/ca.pem" ∧
    (AddRootCA noCwdWorld [⟨[1]⟩]).outcome = .ok [⟨[1]⟩, ⟨[2]⟩] :=
  ⟨rfl, (getwd_error_is_discarded noCwdWorld [⟨[1]⟩]).2.2.2.1 rfl, rfl⟩

end Quicsand
